import Mathlib

/-!
# Verification of the personio-py field-mapping and resource-modelling engine

A shallow embedding of `src/personio_py/models.py`: the `FieldMapping`
family, `DynamicAttr`, the generic `PersonioResource` payload
(de)serialization algorithm, and the `WritablePersonioResource` lifecycle
verbs, together with theorems settling the specification claims.

Python values are modelled by the inductive `PyVal`, Python exceptions by
`PyErr` (fallible code returns `Except PyErr _`), and the process-wide
mutable state (per-class label caches, the one-time-warning dedup set and
the log output) by `PyState`, passed explicitly.  Recursion that is
unbounded in Python (value equality, `json.dumps`, `str`, and the
deserializer that may recurse through nested resources) is modelled with an
explicit fuel parameter mirroring Python's recursion limit; running out of
fuel is Python's `RecursionError`.
-/

/-- Python exceptions that the modelled code can raise.
`unsupportedMethodError` models `UnsupportedMethodError(verb, cls)` and
`personioError` models `PersonioError()`.  Modelled from the spec: both
exception classes live in the `personio_py` package root, which is not part
of the sources; their constructor arguments are taken from the call sites in
`models.py` and from the spec's error taxonomy (`UnsupportedOperation(verb,
type)`, `NoClientConfigured`). -/
inductive PyErr where
  | valueError (msg : String)
  | typeError (msg : String)
  | keyError (key : String)
  | attributeError (attr : String)
  | personioError
  | unsupportedMethodError (method : String) (clsName : String)
  | recursionError
deriving DecidableEq, Repr

/-! ## datetime

`datetime.datetime` values: a naive or offset-aware timestamp.
Microseconds are omitted (every timestamp in scope has zero microseconds,
and `isoformat` omits the microsecond part exactly when it is zero). -/

/-- Model of `datetime.datetime` (without microseconds).  `tzMin` is the
UTC offset in minutes, `none` for a naive timestamp. -/
structure PyDateTime where
  year : Nat
  month : Nat
  day : Nat
  hour : Nat
  minute : Nat
  second : Nat
  tzMin : Option Int
deriving DecidableEq, Repr

def isLeapYear (y : Nat) : Bool :=
  (y % 4 == 0 && y % 100 != 0) || y % 400 == 0

def daysInMonth (y m : Nat) : Nat :=
  if m == 2 then (if isLeapYear y then 29 else 28)
  else if m == 4 || m == 6 || m == 9 || m == 11 then 30
  else 31

/-- The invariants `datetime.datetime` enforces on its fields
(`MINYEAR = 1`, `MAXYEAR = 9999`). -/
def PyDateTime.Valid (t : PyDateTime) : Prop :=
  1 ≤ t.year ∧ t.year ≤ 9999 ∧ 1 ≤ t.month ∧ t.month ≤ 12 ∧
  1 ≤ t.day ∧ t.day ≤ daysInMonth t.year t.month ∧
  t.hour ≤ 23 ∧ t.minute ≤ 59 ∧ t.second ≤ 59

instance (t : PyDateTime) : Decidable t.Valid := by
  unfold PyDateTime.Valid; infer_instance

/-- The decimal digit character for `d % 10`. -/
def digitChar (d : Nat) : Char :=
  match d % 10 with
  | 0 => '0' | 1 => '1' | 2 => '2' | 3 => '3' | 4 => '4'
  | 5 => '5' | 6 => '6' | 7 => '7' | 8 => '8' | _ => '9'

/-- Numeric value of a digit character. -/
def digitVal (c : Char) : Nat := c.toNat - 48

def isDigitChar (c : Char) : Bool := 48 ≤ c.toNat && c.toNat ≤ 57

/-- Two-digit zero-padded rendering (`%02d`), as the pair of characters. -/
def pad2 (n : Nat) : List Char := [digitChar (n / 10), digitChar n]

/-- Four-digit zero-padded rendering (`%04d`) for `n ≤ 9999`. -/
def pad4 (n : Nat) : List Char :=
  [digitChar (n / 1000), digitChar (n / 100), digitChar (n / 10), digitChar n]

/-- The date part `YYYY-MM-DD` of an ISO-8601 rendering. -/
def dateChars (t : PyDateTime) : List Char :=
  pad4 t.year ++ '-' :: (pad2 t.month ++ '-' :: pad2 t.day)

/-- The time part `HH:MM:SS` of an ISO-8601 rendering. -/
def timeChars (t : PyDateTime) : List Char :=
  pad2 t.hour ++ ':' :: (pad2 t.minute ++ ':' :: pad2 t.second)

/-- The UTC-offset suffix `±HH:MM` of an ISO-8601 rendering (empty for a
naive timestamp). -/
def offsetChars (t : PyDateTime) : List Char :=
  match t.tzMin with
  | none => []
  | some off =>
    (if off < 0 then '-' else '+') ::
      (pad2 (off.natAbs / 60) ++ ':' :: pad2 (off.natAbs % 60))

/-- `datetime.isoformat()` with the default separator `T`
(microseconds are zero and therefore omitted). -/
def pyIsoformat (t : PyDateTime) : String :=
  String.mk (dateChars t ++ 'T' :: (timeChars t ++ offsetChars t))

/-- `DateFieldMapping.serialize`: `value.isoformat()[:10]`
(models.py line 56). -/
def dateSerialize (t : PyDateTime) : String :=
  String.mk ((pyIsoformat t).data.take 10)

/-- Read a two-digit number from two characters, validating both. -/
def read2 (a b : Char) : Except PyErr Nat :=
  if isDigitChar a && isDigitChar b then .ok (digitVal a * 10 + digitVal b)
  else .error (.valueError "Invalid isoformat string")

/-- Read a four-digit number from four characters, validating all. -/
def read4 (a b c d : Char) : Except PyErr Nat :=
  if isDigitChar a && isDigitChar b && isDigitChar c && isDigitChar d then
    .ok (digitVal a * 1000 + digitVal b * 100 + digitVal c * 10 + digitVal d)
  else .error (.valueError "Invalid isoformat string")

/-- Validation performed by the `datetime` constructor on a parsed date. -/
def checkDate (y mo d : Nat) : Except PyErr Unit :=
  if 1 ≤ y && y ≤ 9999 && 1 ≤ mo && mo ≤ 12 && 1 ≤ d && d ≤ daysInMonth y mo
  then .ok () else .error (.valueError "day is out of range for month")

/-- Validation performed by the `datetime` constructor on a parsed time. -/
def checkTime (h mi s : Nat) : Except PyErr Unit :=
  if h ≤ 23 && mi ≤ 59 && s ≤ 59 then .ok ()
  else .error (.valueError "Invalid isoformat string")

/-- Parse the optional `±HH:MM` UTC-offset suffix of an ISO-8601 string. -/
def parseOffset : List Char → Except PyErr (Option Int)
  | [] => .ok none
  | [sign, h1, h2, ':', m1, m2] =>
    if sign = '+' || sign = '-' then do
      let h ← read2 h1 h2
      let m ← read2 m1 m2
      let total : Int := (h * 60 + m : Nat)
      .ok (some (if sign = '-' then -total else total))
    else .error (.valueError "Invalid isoformat string")
  | _ => .error (.valueError "Invalid isoformat string")

/-- Parse the time-of-day part `HH[:MM[:SS]]` with optional UTC offset,
as accepted by `datetime.fromisoformat` before Python 3.11. -/
def parseTime (y mo d : Nat) : List Char → Except PyErr PyDateTime
  | [h1, h2] => do
    let h ← read2 h1 h2
    checkTime h 0 0
    .ok ⟨y, mo, d, h, 0, 0, none⟩
  | h1 :: h2 :: ':' :: m1 :: m2 :: rest => do
    let h ← read2 h1 h2
    let mi ← read2 m1 m2
    match rest with
    | [] =>
      checkTime h mi 0
      .ok ⟨y, mo, d, h, mi, 0, none⟩
    | ':' :: s1 :: s2 :: rest' => do
      let s ← read2 s1 s2
      checkTime h mi s
      let off ← parseOffset rest'
      .ok ⟨y, mo, d, h, mi, s, off⟩
    | rest' => do
      checkTime h mi 0
      let off ← parseOffset rest'
      .ok ⟨y, mo, d, h, mi, 0, off⟩
  | _ => .error (.valueError "Invalid isoformat string")

/-- `datetime.fromisoformat` on the character list: a `YYYY-MM-DD` date,
optionally followed by a one-character separator and a time part. -/
def fromIsoChars : List Char → Except PyErr PyDateTime
  | [y1, y2, y3, y4, s1, m1, m2, s2, d1, d2] =>
    if s1 = '-' && s2 = '-' then do
      let y ← read4 y1 y2 y3 y4
      let mo ← read2 m1 m2
      let d ← read2 d1 d2
      checkDate y mo d
      .ok ⟨y, mo, d, 0, 0, 0, none⟩
    else .error (.valueError "Invalid isoformat string")
  | y1 :: y2 :: y3 :: y4 :: s1 :: m1 :: m2 :: s2 :: d1 :: d2 :: _sep :: rest =>
    if s1 = '-' && s2 = '-' then do
      let y ← read4 y1 y2 y3 y4
      let mo ← read2 m1 m2
      let d ← read2 d1 d2
      checkDate y mo d
      parseTime y mo d rest
    else .error (.valueError "Invalid isoformat string")
  | _ => .error (.valueError "Invalid isoformat string")

/-- `DateFieldMapping.deserialize`: `datetime.fromisoformat(value)`
(models.py line 59). -/
def dateDeserialize (s : String) : Except PyErr PyDateTime :=
  fromIsoChars s.data

/-- Midnight on `t`'s calendar date, as a naive timestamp. -/
def midnightOf (t : PyDateTime) : PyDateTime :=
  ⟨t.year, t.month, t.day, 0, 0, 0, none⟩

theorem digitChar_mod (n : Nat) : digitChar (n % 10) = digitChar n := by
  unfold digitChar
  have h : n % 10 % 10 = n % 10 := by omega
  rw [h]

theorem digitChar_roundtrip (d : Nat) (h : d < 10) :
    digitVal (digitChar d) = d ∧ isDigitChar (digitChar d) = true := by
  interval_cases d <;> exact ⟨rfl, rfl⟩

theorem digitChar_facts (n : Nat) :
    digitVal (digitChar n) = n % 10 ∧ isDigitChar (digitChar n) = true := by
  have := digitChar_roundtrip (n % 10) (by omega)
  rwa [digitChar_mod] at this

theorem read2_pad2 (n : Nat) (h : n < 100) :
    read2 (digitChar (n / 10)) (digitChar n) = .ok n := by
  have h1 := digitChar_facts (n / 10)
  have h2 := digitChar_facts n
  simp only [read2, h1.1, h1.2, h2.1, h2.2, Bool.and_self, if_true]
  congr 1
  omega

theorem read4_pad4 (n : Nat) (h : n < 10000) :
    read4 (digitChar (n / 1000)) (digitChar (n / 100)) (digitChar (n / 10))
      (digitChar n) = .ok n := by
  have h1 := digitChar_facts (n / 1000)
  have h2 := digitChar_facts (n / 100)
  have h3 := digitChar_facts (n / 10)
  have h4 := digitChar_facts n
  simp only [read4, h1.1, h1.2, h2.1, h2.2, h3.1, h3.2, h4.1, h4.2,
    Bool.and_self, if_true]
  congr 1
  omega

theorem checkDate_valid (t : PyDateTime) (h : t.Valid) :
    checkDate t.year t.month t.day = .ok () := by
  obtain ⟨h1, h2, h3, h4, h5, h6, -⟩ := h
  have hc : (decide (1 ≤ t.year) && decide (t.year ≤ 9999) && decide (1 ≤ t.month)
      && decide (t.month ≤ 12) && decide (1 ≤ t.day)
      && decide (t.day ≤ daysInMonth t.year t.month)) = true := by
    simp only [Bool.and_eq_true, decide_eq_true_eq]
    omega
  simp [checkDate, hc]

/-- C5: for the date field mapping and every (valid) timestamp `t`,
`serialize(t)` is the 10-character date-only string `YYYY-MM-DD` (the first
10 characters of `t`'s ISO-8601 form, which `dateSerialize` takes by
definition), and `deserialize(serialize(t))` is the timestamp at midnight
on `t`'s calendar date, discarding the time-of-day (and offset). -/
theorem c5_date_roundtrip (t : PyDateTime) (h : t.Valid) :
    dateSerialize t = String.mk (dateChars t) ∧
    (dateSerialize t).length = 10 ∧
    dateDeserialize (dateSerialize t) = .ok (midnightOf t) := by
  have hser : dateSerialize t = String.mk (dateChars t) := by
    simp [dateSerialize, pyIsoformat, dateChars, pad4, pad2, List.take]
  refine ⟨hser, ?_, ?_⟩
  · rw [hser]
    simp [String.length, dateChars, pad4, pad2]
  · rw [hser]
    have hcd := checkDate_valid t h
    obtain ⟨h1, h2, h3, h4, h5, h6, -⟩ := h
    have hdm : t.day ≤ 31 := le_trans h6 (by unfold daysInMonth; split <;> split <;> omega)
    simp only [dateDeserialize, dateChars, pad4, pad2, List.cons_append,
      List.nil_append, fromIsoChars]
    rw [if_pos (by simp)]
    rw [read4_pad4 t.year (by omega)]
    simp only [bind, Except.bind]
    rw [read2_pad2 t.month (by omega)]
    simp only [bind, Except.bind]
    rw [read2_pad2 t.day (by omega)]
    simp only [bind, Except.bind]
    rw [hcd]
    rfl

/-- Witness for `c5_date_roundtrip` at the timestamp
`datetime(1944, 9, 1, 12, 30, 5)`. -/
theorem c5_date_roundtrip_witness :
    (PyDateTime.mk 1944 9 1 12 30 5 none).Valid ∧
    (dateSerialize ⟨1944, 9, 1, 12, 30, 5, none⟩ = String.mk (dateChars ⟨1944, 9, 1, 12, 30, 5, none⟩) ∧
     (dateSerialize ⟨1944, 9, 1, 12, 30, 5, none⟩).length = 10 ∧
     dateDeserialize (dateSerialize ⟨1944, 9, 1, 12, 30, 5, none⟩) =
       .ok (midnightOf ⟨1944, 9, 1, 12, 30, 5, none⟩)) :=
  ⟨by decide, c5_date_roundtrip ⟨1944, 9, 1, 12, 30, 5, none⟩ (by decide)⟩

/-! ## Decimal rendering and parsing of integers (`str(int)` / `int(str)`) -/

/-- Digits of `n`, least significant first, with explicit fuel
(`fuel ≥ n` suffices; structural so that terms evaluate). -/
def natDigitsAux : Nat → Nat → List Char
  | 0, _ => []
  | _ + 1, 0 => []
  | fuel + 1, n + 1 => digitChar ((n + 1) % 10) :: natDigitsAux fuel ((n + 1) / 10)

/-- Decimal rendering of a natural number, as `str` produces it. -/
def natToChars (n : Nat) : List Char :=
  if n = 0 then ['0'] else (natDigitsAux n n).reverse

/-- Decimal rendering of an integer, as `str` produces it. -/
def intToChars (i : Int) : List Char :=
  if i < 0 then '-' :: natToChars i.natAbs else natToChars i.natAbs

/-- `str(i)` for an `int` value. -/
def pyStrOfInt (i : Int) : String := String.mk (intToChars i)

/-- Fold a digit list (most significant first) into its value, `none` on a
non-digit or an empty list. -/
def digitsValAux (acc : Nat) : List Char → Option Nat
  | [] => some acc
  | c :: rest =>
    if isDigitChar c then digitsValAux (acc * 10 + digitVal c) rest else none

def digitsVal : List Char → Option Nat
  | [] => none
  | l => digitsValAux 0 l

/-- `int(s)`: strip spaces, optional sign, then decimal digits; anything
else raises `ValueError`. -/
def pyIntOfChars (orig : String) (t : List Char) : Except PyErr Int :=
  let err : Except PyErr Int :=
    .error (.valueError ("invalid literal for int() with base 10: '" ++ orig ++ "'"))
  match t with
  | [] => err
  | c :: rest =>
    if c = '-' then
      match digitsVal rest with
      | some n => .ok (-(n : Int))
      | none => err
    else if c = '+' then
      match digitsVal rest with
      | some n => .ok (n : Int)
      | none => err
    else
      match digitsVal (c :: rest) with
      | some n => .ok (n : Int)
      | none => err

def pyIntOfString (s : String) : Except PyErr Int :=
  pyIntOfChars s (((s.data.dropWhile (· = ' ')).reverse.dropWhile (· = ' ')).reverse)

/-- `float(s)` on simple decimal literals (`[-]digits[.digits]`), as an
exact rational; other float syntax is out of scope for the claims. -/
def pyFloatOfString (s : String) : Except PyErr Rat :=
  let err : Except PyErr Rat :=
    .error (.valueError ("could not convert string to float: '" ++ s ++ "'"))
  let t := ((s.data.dropWhile (· = ' ')).reverse.dropWhile (· = ' ')).reverse
  let core := fun (l : List Char) (sign : Int) =>
    match l.span (· ≠ '.') with
    | (intPart, []) =>
      match digitsVal intPart with
      | some n => Except.ok (sign * (n : Int) : Rat)
      | none => err
    | (intPart, _dot :: fracPart) =>
      match digitsVal intPart, digitsVal fracPart with
      | some n, some f =>
        Except.ok (sign * ((n : Rat) + (f : Rat) / ((10 : Rat) ^ fracPart.length)))
      | _, _ => err
  match t with
  | '-' :: rest => core rest (-1)
  | '+' :: rest => core rest 1
  | rest => core rest 1

/-! ## Python values, instances, and process state -/

/-- Model of a `Personio` transport client.  Modelled from the spec: the
transport collaborator is not part of the sources; it exposes
`authenticated: boolean` and a side-effecting `authenticate()` (modelled as
setting the flag). -/
structure Client where
  authenticated : Bool
deriving DecidableEq, Repr

mutual
/-- Python values appearing in payloads and resource attributes. -/
inductive PyVal where
  | vNone
  | vInt (n : Int)
  | vRat (q : Rat)
  | vStr (s : String)
  | vDateTime (t : PyDateTime)
  | vList (l : List PyVal)
  | vDict (l : List (String × PyVal))
  | vInst (i : PyInstance)

/-- A `PersonioResource` instance: its concrete class name, its instance
attributes in assignment order, the `dynamic` attribute (`none` when the
class never sets it, i.e. for non-writable resources), and the stored
`_client` reference (only on writable resources; not part of equality). -/
inductive PyInstance where
  | mk (cls : String) (attrs : List (String × PyVal))
       (dyn : Option (List (Int × PyDynAttr))) (client : Option Client)

/-- A `DynamicAttr` named tuple: `field_id`, `label`, `value`. -/
inductive PyDynAttr where
  | mk (field_id : Int) (label : PyVal) (value : PyVal)
end

def PyInstance.cls : PyInstance → String
  | .mk c _ _ _ => c

def PyInstance.attrs : PyInstance → List (String × PyVal)
  | .mk _ a _ _ => a

def PyInstance.dyn : PyInstance → Option (List (Int × PyDynAttr))
  | .mk _ _ d _ => d

def PyInstance.client : PyInstance → Option Client
  | .mk _ _ _ c => c

def PyDynAttr.field_id : PyDynAttr → Int
  | .mk f _ _ => f

def PyDynAttr.label : PyDynAttr → PyVal
  | .mk _ l _ => l

def PyDynAttr.value : PyDynAttr → PyVal
  | .mk _ _ v => v

/-- The process-wide mutable state: the per-class label caches
(`PersonioResource._label_mapping()`), the one-time-log dedup set
(`_unique_logs`) and the emitted log records (level, message), in order. -/
structure PyState where
  labels : List (String × List (String × PyVal))
  uniqueLogs : List String
  logged : List (Nat × String)

/-- The initial process state: empty caches, nothing logged. -/
def initState : PyState := ⟨[], [], []⟩

/-- `logging.WARNING` -/
def WARNING : Nat := 30

/-- Python dict assignment `d[k] = v`: overwrite in place if the key is
present, else append. -/
def dictInsert {κ β : Type} [BEq κ] (l : List (κ × β)) (k : κ) (v : β) :
    List (κ × β) :=
  match l with
  | [] => [(k, v)]
  | (k', v') :: rest =>
    if k' == k then (k', v) :: rest else (k', v') :: dictInsert rest k v

/-- The label cache of class `cls` (missing cache = empty dict). -/
def labelsOf (st : PyState) (cls : String) : List (String × PyVal) :=
  (st.labels.lookup cls).getD []

/-- `label_mapping[key] = label` on the cache of class `cls`. -/
def setLabel (st : PyState) (cls key : String) (label : PyVal) : PyState :=
  { st with labels := dictInsert st.labels cls (dictInsert (labelsOf st cls) key label) }

/-- `log_once(level, message)` (models.py lines 530-533): log only if the
message was never logged before, then remember it. -/
def logOnce (st : PyState) (level : Nat) (message : String) : PyState :=
  if st.uniqueLogs.contains message then st
  else { st with logged := st.logged ++ [(level, message)],
                 uniqueLogs := st.uniqueLogs ++ [message] }

/-- `d[k]` on a Python value: index a dict, `KeyError` when absent,
`TypeError` when not a dict. -/
def pyGetItem (d : PyVal) (k : String) : Except PyErr PyVal :=
  match d with
  | .vDict l =>
    match l.lookup k with
    | some v => .ok v
    | none => .error (.keyError k)
  | _ => .error (.typeError "object is not subscriptable")

/-- `s.startswith(pre)` -/
def pyStartsWith (s pre : String) : Bool := pre.data.isPrefixOf s.data

/-- The characters after the first occurrence of `c`
(the second component of `s.split(c, maxsplit=1)`), if any. -/
def splitRestAux (c : Char) : List Char → Option (List Char)
  | [] => none
  | a :: l => if a = c then some l else splitRestAux c l

/-- `key.split('_', maxsplit=1)[1]` as used by `DynamicAttr.from_dict`;
`none` when the separator does not occur (so that unpacking would fail). -/
def pySplitRest (c : Char) (s : String) : Option String :=
  (splitRestAux c s.data).map String.mk

/-! ## `str` / `repr` rendering of values -/

/-- Scale `q` by the smallest power of ten (up to 17, the float repr digit
budget) that makes it integral. -/
def ratScale (q : Rat) : Option (Int × Nat) :=
  (List.range 18).findSome? (fun k =>
    let s := q * (10 : Rat) ^ k
    if s.den == 1 then some (s.num, k) else none)

/-- `str(float)` on the exact rationals in scope (decimal rendering; the
shortest-repr subtleties of CPython float repr are out of scope — no claim
evaluates this function). -/
def pyStrOfRat (q : Rat) : String :=
  match ratScale q with
  | some (m, 0) => pyStrOfInt m ++ ".0"
  | some (m, k) =>
    let ds := natToChars m.natAbs
    let ds := List.replicate (k + 1 - ds.length) '0' ++ ds
    let intPart := ds.take (ds.length - k)
    let fracPart := ds.drop (ds.length - k)
    (if m < 0 then "-" else "") ++ String.mk intPart ++ "." ++ String.mk fracPart
  | none => pyStrOfInt q.num ++ "/" ++ pyStrOfInt q.den

/-- Helper: comma-join rendered parts. -/
def joinParts (sep : String) : List String → String
  | [] => ""
  | [x] => x
  | x :: rest => x ++ sep ++ joinParts sep rest

/-- `str`/`repr` of a value with explicit fuel (Python's recursion limit);
`asRepr` selects `repr` (string elements of containers are rendered via
`repr`).  The `repr` of a `datetime` and the `_client`/`dynamic` entries of
an instance `__dict__` are rendered in simplified form — no claim evaluates
those cases. -/
def pyStrF : Nat → Bool → PyVal → Except PyErr String
  | 0, _, _ => .error .recursionError
  | fuel + 1, asRepr, v =>
    match v with
    | .vNone => .ok "None"
    | .vInt n => .ok (pyStrOfInt n)
    | .vRat q => .ok (pyStrOfRat q)
    | .vStr s => .ok (if asRepr then "'" ++ s ++ "'" else s)
    | .vDateTime t =>
      .ok (String.mk (dateChars t ++ ' ' :: (timeChars t ++ offsetChars t)))
    | .vList l => do
      let parts ← l.mapM (fun x => pyStrF fuel true x)
      .ok ("[" ++ joinParts ", " parts ++ "]")
    | .vDict l => do
      let parts ← l.mapM (fun kv => do
        let r ← pyStrF fuel true kv.2
        pure ("'" ++ kv.1 ++ "': " ++ r))
      .ok ("\x7b" ++ joinParts ", " parts ++ "\x7d")
    | .vInst i => do
      let parts ← i.attrs.mapM (fun kv => do
        let r ← pyStrF fuel true kv.2
        pure ("'" ++ kv.1 ++ "': " ++ r))
      .ok (i.cls ++ " \x7b" ++ joinParts ", " parts ++ "\x7d")

/-- `sys.getrecursionlimit()`: the default recursion budget. -/
def pyRecLimit : Nat := 1000

/-! ## Field mappings (models.py lines 20-86) and the concrete tables -/

/-- The non-`Employee` resource classes that appear as nested object types.
None of them declares `_field_mapping_list`, so they all inherit the empty
table. -/
inductive NestedTy where
  | shortEmployee | office | department | costCenter | holidayCalendar
  | workSchedule | absenceEntitlement | team | absenceType
deriving DecidableEq, Repr

def NestedTy.clsName : NestedTy → String
  | .shortEmployee => "ShortEmployee"
  | .office => "Office"
  | .department => "Department"
  | .costCenter => "CostCenter"
  | .holidayCalendar => "HolidayCalendar"
  | .workSchedule => "WorkSchedule"
  | .absenceEntitlement => "AbsenceEntitlement"
  | .team => "Team"
  | .absenceType => "AbsenceType"

/-- `__init__` parameters of each nested class (all required, no
defaults). -/
def NestedTy.params : NestedTy → List String
  | .shortEmployee => ["id_", "first_name", "last_name", "email"]
  | .office => ["name"]
  | .department => ["name"]
  | .costCenter => ["id_", "name", "percentage"]
  | .holidayCalendar => ["id_", "name", "country", "state"]
  | .workSchedule => ["id_", "name", "monday", "tuesday", "wednesday",
                      "thursday", "friday", "saturday", "sunday"]
  | .absenceEntitlement => []
  | .team => ["id_", "name"]
  | .absenceType => ["id_", "name"]

/-- Whether the class body assigns its parameters to attributes
(`AbsenceType.__init__` ignores its arguments, models.py lines 283-286). -/
def NestedTy.storesAttrs : NestedTy → Bool
  | .absenceType => false
  | _ => true

/-- The kind of a `FieldMapping`: the base class with `field_type=str`,
`NumericFieldMapping` (`toInt` selects `int` over `float`),
`DateFieldMapping`, `ObjectFieldMapping`, `ListFieldMapping`. -/
inductive FieldKind where
  | plainStr
  | numeric (toInt : Bool)
  | date
  | obj (t : NestedTy)
  | listOf (inner : FieldKind)
deriving DecidableEq, Repr

/-- A field-mapping descriptor: API field name, local field name, kind. -/
structure FieldMappingM where
  api_field : String
  class_field : String
  kind : FieldKind
deriving DecidableEq, Repr

/-- `Employee._field_mapping_list` (models.py lines 418-449), in
declaration order. -/
def employeeMappings : List FieldMappingM := [
  ⟨"id", "id_", .numeric true⟩,
  ⟨"first_name", "first_name", .plainStr⟩,
  ⟨"last_name", "last_name", .plainStr⟩,
  ⟨"email", "email", .plainStr⟩,
  ⟨"gender", "gender", .plainStr⟩,
  ⟨"status", "status", .plainStr⟩,
  ⟨"position", "position", .plainStr⟩,
  ⟨"supervisor", "supervisor", .obj .shortEmployee⟩,
  ⟨"employment_type", "employment_type", .plainStr⟩,
  ⟨"weekly_working_hours", "weekly_working_hours", .plainStr⟩,
  ⟨"hire_date", "hire_date", .date⟩,
  ⟨"contract_end_date", "contract_end_date", .date⟩,
  ⟨"termination_date", "termination_date", .date⟩,
  ⟨"termination_type", "termination_type", .plainStr⟩,
  ⟨"termination_reason", "termination_reason", .plainStr⟩,
  ⟨"probation_period_end", "probation_period_end", .date⟩,
  ⟨"created_at", "created_at", .date⟩,
  ⟨"last_modified_at", "last_modified_at", .date⟩,
  ⟨"office", "office", .obj .office⟩,
  ⟨"department", "department", .obj .department⟩,
  ⟨"cost_centers", "cost_centers", .listOf (.obj .costCenter)⟩,
  ⟨"fix_salary", "fix_salary", .numeric false⟩,
  ⟨"hourly_salary", "hourly_salary", .numeric false⟩,
  ⟨"vacation_day_balance", "vacation_day_balance", .numeric false⟩,
  ⟨"last_working_day", "last_working_day", .date⟩,
  ⟨"holiday_calendar", "holiday_calendar", .obj .holidayCalendar⟩,
  ⟨"work_schedule", "work_schedule", .obj .workSchedule⟩,
  ⟨"absence_entitlement", "absence_entitlement", .obj .absenceEntitlement⟩,
  ⟨"profile_picture", "profile_picture", .plainStr⟩,
  ⟨"team", "team", .obj .team⟩]

/-- `Employee.__init__` keyword parameters other than `client` and
`dynamic` (models.py lines 451-483), all defaulting to `None`. -/
def employeeParams : List String :=
  ["id_", "first_name", "last_name", "email", "gender", "status", "position",
   "supervisor", "employment_type", "weekly_working_hours", "hire_date",
   "contract_end_date", "termination_date", "termination_type",
   "termination_reason", "probation_period_end", "created_at",
   "last_modified_at", "office", "department", "cost_centers", "fix_salary",
   "hourly_salary", "vacation_day_balance", "last_working_day",
   "holiday_calendar", "work_schedule", "absence_entitlement",
   "profile_picture", "team"]

/-- `_field_mapping_list` of a class by name: only `Employee` declares a
table; every other class inherits the empty default. -/
def mappingsOf (cls : String) : List FieldMappingM :=
  if cls == "Employee" then employeeMappings else []

/-- The classes deriving from `WritablePersonioResource` (whose `__init__`
sets the `dynamic` attribute and whose `to_dict` appends dynamic fields). -/
def isWritableClass (cls : String) : Bool :=
  cls == "Employee" || cls == "Absence" || cls == "Attendance" ||
    cls == "WritablePersonioResource"

/-! ## DynamicAttr (models.py lines 89-111) -/

/-- `DynamicAttr.from_dict(key, d)` (models.py lines 102-108). -/
def dynAttrFromDict (key : String) (d : PyVal) : Except PyErr PyDynAttr :=
  if pyStartsWith key "dynamic_" then
    match pySplitRest '_' key with
    | some fidStr => do
      let fid ← pyIntOfString fidStr
      let lab ← pyGetItem d "label"
      let v ← pyGetItem d "value"
      .ok (.mk fid lab v)
    | none => .error (.valueError "not enough values to unpack")
  else
    .error (.valueError ("dynamic attribute '" ++ key ++ "' does not start with 'dynamic_'"))

/-- `DynamicAttr.to_dict` (models.py lines 110-111). -/
def dynAttrToDict (d : PyDynAttr) : PyVal :=
  .vDict [("label", d.label), ("value", d.value)]

/-! ## Encoding: `to_dict` (models.py lines 148-156 and 231-235)

Note `to_dict` stores the raw local value under `'value'`; it never calls
`mapping.serialize`. -/

/-- `getattr(instance, name)` on the modelled instance attributes. -/
def getattrE (i : PyInstance) (name : String) : Except PyErr PyVal :=
  match i.attrs.lookup name with
  | some v => .ok v
  | none => .error (.attributeError name)

/-- `value is None` -/
def isNoneV : PyVal → Bool
  | .vNone => true
  | _ => false

/-- The loop of `PersonioResource.to_dict` (lines 151-155): one entry per
mapping in declaration order whose local value is not `None`, wrapping the
raw value with the cached label (`label_mapping.get` yields `None` when the
label was never seen). -/
def plainToDictAux (labelCache : List (String × PyVal)) (i : PyInstance) :
    List FieldMappingM → List (String × PyVal) →
    Except PyErr (List (String × PyVal))
  | [], acc => .ok acc
  | m :: rest, acc => do
    let v ← getattrE i m.class_field
    if isNoneV v then plainToDictAux labelCache i rest acc
    else
      let label := (labelCache.lookup m.api_field).getD .vNone
      plainToDictAux labelCache i rest
        (dictInsert acc m.api_field (.vDict [("label", label), ("value", v)]))

/-- `to_dict()` of an instance: the plain part, plus — on writable
classes — one `dynamic_<id>` entry per dynamic attribute
(`WritablePersonioResource.to_dict`, lines 231-235). -/
def instToDict (st : PyState) (i : PyInstance) :
    Except PyErr (List (String × PyVal)) := do
  let base ← plainToDictAux (labelsOf st i.cls) i (mappingsOf i.cls) []
  if isWritableClass i.cls then
    match i.dyn with
    | some dl =>
      .ok (dl.foldl (fun acc kv =>
        dictInsert acc ("dynamic_" ++ pyStrOfInt kv.2.field_id)
          (dynAttrToDict kv.2)) base)
    | none => .error (.attributeError "dynamic")
  else .ok base

/-! ## The `serialize` strategies (models.py lines 27-28, 43-44, 55-56,
67-68, 82-83) -/

/-- Serialize a list elementwise with a given element serializer. -/
def serListAux (f : PyVal → Except PyErr PyVal) :
    List PyVal → Except PyErr (List PyVal)
  | [] => .ok []
  | x :: rest => do
    let y ← f x
    let ys ← serListAux f rest
    .ok (y :: ys)

/-- `mapping.serialize(value)` per mapping kind: stringify (plain), pass
through (numeric), date-only ISO string (date), `value.to_dict()` (object),
elementwise (list). -/
def serializeField (st : PyState) : FieldKind → PyVal → Except PyErr PyVal
  | .plainStr, v => (pyStrF pyRecLimit false v).map .vStr
  | .numeric _, v => .ok v
  | .date, v =>
    match v with
    | .vDateTime t => .ok (.vStr (dateSerialize t))
    | _ => .error (.attributeError "isoformat")
  | .obj _, v =>
    match v with
    | .vInst i => (instToDict st i).map .vDict
    | _ => .error (.attributeError "to_dict")
  | .listOf inner, v =>
    match v with
    | .vList l => (serListAux (fun x => serializeField st inner x) l).map .vList
    | _ => .error (.typeError "object is not iterable")

/-! ## Decoding: `_map_fields` and `from_dict`
(models.py lines 143-146, 170-191, 226-229) -/

/-- `_field_mapping()[key]`: membership and lookup in the dict built from
the mapping list (`{fm.api_field: fm for fm in ...}`, last entry wins on a
duplicate API field name). -/
def fieldMappingFor (ms : List FieldMappingM) (key : String) :
    Option FieldMappingM :=
  ms.reverse.find? (fun fm => fm.api_field == key)

/-- One deserializer invocation: takes a kind, a wire value and the state,
returns the possibly-updated state and the deserialized value or error. -/
abbrev Deser := FieldKind → PyVal → PyState → PyState × Except PyErr PyVal

/-- The loop of `_map_fields` (lines 176-188): per payload entry, record
the label in the class label cache, then dispatch on known field / dynamic
field / unknown field.  The warning message renders
`cls.__class__.__name__`, which is the metaclass name `"type"` for every
class, so the message text does not depend on the resource class.
Errors keep the state reached so far, as raised exceptions do in Python. -/
def mapFieldsAux (deser : Deser) (clsName : String) (ms : List FieldMappingM) :
    List (String × PyVal) → PyState → List (String × PyVal) →
    List PyDynAttr →
    PyState × Except PyErr (List (String × PyVal) × List PyDynAttr)
  | [], st, kwargs, dynamic => (st, .ok (kwargs, dynamic))
  | (key, data) :: rest, st, kwargs, dynamic =>
    match pyGetItem data "label" with
    | .error e => (st, .error e)
    | .ok lab =>
      let st1 := setLabel st clsName key lab
      match fieldMappingFor ms key with
      | some fm =>
        match pyGetItem data "value" with
        | .error e => (st1, .error e)
        | .ok wire =>
          match deser fm.kind wire st1 with
          | (st2, .error e) => (st2, .error e)
          | (st2, .ok v) =>
            mapFieldsAux deser clsName ms rest st2
              (dictInsert kwargs fm.class_field v) dynamic
      | none =>
        if pyStartsWith key "dynamic_" then
          match dynAttrFromDict key data with
          | .error e => (st1, .error e)
          | .ok dyn => mapFieldsAux deser clsName ms rest st1 kwargs (dynamic ++ [dyn])
        else
          mapFieldsAux deser clsName ms rest
            (logOnce st1 WARNING ("unexpected field '" ++ key ++ "' in class type"))
            kwargs dynamic

/-- `cls._map_fields(d)`. -/
def mapFieldsGen (deser : Deser) (clsName : String) (ms : List FieldMappingM)
    (d : List (String × PyVal)) (st : PyState) :
    PyState × Except PyErr (List (String × PyVal) × List PyDynAttr) :=
  mapFieldsAux deser clsName ms d st [] []

/-- Keyword binding of a nested (plain) class constructor: every parameter
is required and without default; `_map_fields` adds a `dynamic` keyword
when dynamic attributes were collected, which no nested class accepts. -/
def nestedCtor (t : NestedTy) (kwargs : List (String × PyVal))
    (dynamic : List PyDynAttr) : Except PyErr PyInstance :=
  if !dynamic.isEmpty then
    .error (.typeError "__init__() got an unexpected keyword argument 'dynamic'")
  else if !kwargs.all (fun kv => t.params.contains kv.1) then
    .error (.typeError "__init__() got an unexpected keyword argument")
  else if !t.params.all (fun p => kwargs.any (fun kv => kv.1 == p)) then
    .error (.typeError "__init__() missing required positional arguments")
  else
    .ok (.mk t.clsName
      (if t.storesAttrs then
        t.params.map (fun p => (p, (kwargs.lookup p).getD .vNone))
      else [])
      none none)

/-- Elementwise deserialization of a list value, threading the state. -/
def deserListAux (f : PyVal → PyState → PyState × Except PyErr PyVal) :
    List PyVal → PyState → PyState × Except PyErr (List PyVal)
  | [], st => (st, .ok [])
  | x :: rest, st =>
    match f x st with
    | (st1, .error e) => (st1, .error e)
    | (st1, .ok y) =>
      match deserListAux f rest st1 with
      | (st2, .error e) => (st2, .error e)
      | (st2, .ok ys) => (st2, .ok (y :: ys))

/-- `mapping.deserialize(value)` per mapping kind, with fuel for the
recursion through nested resources: construct-from-`str` (plain, all plain
mappings have `field_type=str`), string-coerce-only (numeric),
`datetime.fromisoformat` (date), nested `from_dict` (object, i.e.
`_map_fields` over the nested class's empty table followed by its
constructor), elementwise (list). -/
def deserializeFieldF : Nat → Deser
  | 0, _, _, st => (st, .error .recursionError)
  | fuel + 1, k, v, st =>
    match k with
    | .plainStr => (st, (pyStrF pyRecLimit false v).map .vStr)
    | .numeric toInt =>
      (st, match v with
        | .vStr s =>
          if toInt then (pyIntOfString s).map .vInt
          else (pyFloatOfString s).map .vRat
        | _ => .ok v)
    | .date =>
      (st, match v with
        | .vStr s => (dateDeserialize s).map .vDateTime
        | _ => .error (.typeError "fromisoformat: argument must be str"))
    | .obj t =>
      match v with
      | .vDict l =>
        match mapFieldsGen (fun k' v' st' => deserializeFieldF fuel k' v' st')
            t.clsName [] l st with
        | (st1, .error e) => (st1, .error e)
        | (st1, .ok (kwargs, dynamic)) => (st1, (nestedCtor t kwargs dynamic).map .vInst)
      | _ => (st, .error (.attributeError "items"))
    | .listOf inner =>
      match v with
      | .vList l =>
        match deserListAux (fun x stx => deserializeFieldF fuel inner x stx) l st with
        | (st1, .error e) => (st1, .error e)
        | (st1, .ok ys) => (st1, .ok (.vList ys))
      | _ => (st, .error (.typeError "object is not iterable"))

/-- `Employee.__init__` binding: unknown keywords are a `TypeError`; every
parameter defaults to `None`; attributes are assigned in parameter order;
the `dynamic` list becomes the `{field_id: attr}` dict (insertion order,
last assignment wins on a duplicate id); the client reference is stored. -/
def employeeNew (client : Option Client) (dynamic : List PyDynAttr)
    (kwargs : List (String × PyVal)) : Except PyErr PyInstance :=
  if kwargs.all (fun kv => employeeParams.contains kv.1) then
    .ok (.mk "Employee"
      (employeeParams.map (fun p => (p, (kwargs.lookup p).getD .vNone)))
      (some (dynamic.foldl (fun acc d => dictInsert acc d.field_id d) []))
      client)
  else .error (.typeError "__init__() got an unexpected keyword argument")

/-- `Employee.from_dict(d, client)` (models.py lines 226-229): `_map_fields`
then construction; the collected dynamic list is passed through the
`dynamic` keyword (an empty list and an absent keyword construct the same
empty dict). -/
def employeeFromDict (client : Option Client) (d : List (String × PyVal))
    (st : PyState) : PyState × Except PyErr PyInstance :=
  match mapFieldsGen (deserializeFieldF pyRecLimit) "Employee" employeeMappings d st with
  | (st1, .error e) => (st1, .error e)
  | (st1, .ok (kwargs, dynamic)) => (st1, employeeNew client dynamic kwargs)

/-! ## Equality and ordering projection (models.py lines 158-206) -/

/-- `str(cls)` for a class: the discriminator stored in the projection
tuple. -/
def pyClassStr (cls : String) : String :=
  "<class 'personio_py.models." ++ cls ++ "'>"

/-- `to_tuple()` (models.py lines 165-168): the mapped attribute values in
declaration order, the `dynamic` attribute (an `AttributeError` on classes
that never set it) and the class discriminator. -/
def toTuple (i : PyInstance) :
    Except PyErr (List PyVal × List (Int × PyDynAttr) × String) := do
  let vals ← (mappingsOf i.cls).mapM (fun m => getattrE i m.class_field)
  match i.dyn with
  | some d => .ok (vals, d, pyClassStr i.cls)
  | none => .error (.attributeError "dynamic")

/-- Days since 1970-01-01 of a civil date (standard era-based formula);
used only for comparing offset-aware timestamps. -/
def daysFromCivil (y m d : Int) : Int :=
  let y' := if m ≤ 2 then y - 1 else y
  let era := (if y' ≥ 0 then y' else y' - 399) / 400
  let yoe := y' - era * 400
  let doy := (153 * (if m > 2 then m - 3 else m + 9) + 2) / 5 + d - 1
  let doe := yoe * 365 + yoe / 4 - yoe / 100 + doy
  era * 146097 + doe - 719468

/-- `datetime.__eq__`: naive timestamps compare componentwise, aware ones
as instants, a naive/aware pair compares unequal. -/
def pyDtEqB (a b : PyDateTime) : Bool :=
  match a.tzMin, b.tzMin with
  | none, none => a == b
  | some x, some y =>
    daysFromCivil a.year a.month a.day * 86400
      + (a.hour * 3600 + a.minute * 60 + a.second : Nat) - x * 60
    == daysFromCivil b.year b.month b.day * 86400
      + (b.hour * 3600 + b.minute * 60 + b.second : Nat) - y * 60
  | _, _ => false

/-- Elementwise `==` of two value lists (Python tuple/list equality:
lengths first, then pairwise, stopping at the first mismatch). -/
def valsEqGen (eq : PyVal → PyVal → Except PyErr Bool) (l1 l2 : List PyVal) :
    Except PyErr Bool :=
  if l1.length != l2.length then .ok false
  else (l1.zip l2).foldl (fun acc kv => do
    let r ← acc
    if r then eq kv.1 kv.2 else .ok false) (.ok true)

/-- `DynamicAttr` named-tuple equality. -/
def dynAttrEqGen (eq : PyVal → PyVal → Except PyErr Bool) (x y : PyDynAttr) :
    Except PyErr Bool := do
  if x.field_id == y.field_id then
    let b ← eq x.label y.label
    if b then eq x.value y.value else .ok false
  else .ok false

/-- Python dict equality for the `{field_id: DynamicAttr}` dict: same size
and, per key, an equal value — insertion order is irrelevant. -/
def dynDictEqGen (eq : PyVal → PyVal → Except PyErr Bool)
    (d1 d2 : List (Int × PyDynAttr)) : Except PyErr Bool :=
  if d1.length != d2.length then .ok false
  else d1.foldl (fun acc kv => do
    let r ← acc
    if r then
      match d2.lookup kv.1 with
      | some w => dynAttrEqGen eq kv.2 w
      | none => .ok false
    else .ok false) (.ok true)

/-- Python dict equality for string-keyed dict values. -/
def strDictEqGen (eq : PyVal → PyVal → Except PyErr Bool)
    (d1 d2 : List (String × PyVal)) : Except PyErr Bool :=
  if d1.length != d2.length then .ok false
  else d1.foldl (fun acc kv => do
    let r ← acc
    if r then
      match d2.lookup kv.1 with
      | some w => eq kv.2 w
      | none => .ok false
    else .ok false) (.ok true)

/-- Equality of two projection tuples: values, dynamic dict, class tag. -/
def tupleEqGen (eq : PyVal → PyVal → Except PyErr Bool)
    (t1 t2 : List PyVal × List (Int × PyDynAttr) × String) :
    Except PyErr Bool := do
  let b1 ← valsEqGen eq t1.1 t2.1
  if b1 then
    let b2 ← dynDictEqGen eq t1.2.1 t2.2.1
    if b2 then .ok (t1.2.2 == t2.2.2) else .ok false
  else .ok false

/-- Python `==` on modelled values, with fuel for the unbounded recursion
(exceeding it is Python's `RecursionError`).  Numeric values compare across
`int`/`float`; every other cross-type pair compares unequal; resources
compare via `__eq__`, i.e. their `to_tuple()` projections
(models.py lines 196-200). -/
def pyEqF : Nat → PyVal → PyVal → Except PyErr Bool
  | 0, _, _ => .error .recursionError
  | fuel + 1, a, b =>
    match a, b with
    | .vNone, .vNone => .ok true
    | .vInt x, .vInt y => .ok (x == y)
    | .vInt x, .vRat q => .ok ((x : Rat) == q)
    | .vRat q, .vInt x => .ok (q == (x : Rat))
    | .vRat p, .vRat q => .ok (p == q)
    | .vStr s, .vStr t => .ok (s == t)
    | .vDateTime x, .vDateTime y => .ok (pyDtEqB x y)
    | .vList xs, .vList ys => valsEqGen (fun x y => pyEqF fuel x y) xs ys
    | .vDict xs, .vDict ys => strDictEqGen (fun x y => pyEqF fuel x y) xs ys
    | .vInst i, .vInst j =>
      match toTuple i, toTuple j with
      | .ok t1, .ok t2 => tupleEqGen (fun x y => pyEqF fuel x y) t1 t2
      | .error e, _ => .error e
      | _, .error e => .error e
    | _, _ => .ok false

/-- `a == b` on two resources (`PersonioResource.__eq__`). -/
def resourceEq (a b : PyInstance) : Except PyErr Bool :=
  pyEqF pyRecLimit (.vInst a) (.vInst b)

/-! ## Hashing (models.py lines 193-194):
`hash(json.dumps(self.to_tuple(), sort_keys=True))`.  Python's `hash` is a
fixed function of its string argument, so the canonical JSON string is
modelled as the hash key: equal keys give equal hash values. -/

/-- JSON string quoting (escaping of quote and backslash; control-character
escapes are elided — no string in scope contains them). -/
def jsonQuote (s : String) : String :=
  "\"" ++ String.mk (s.data.foldr (fun c acc =>
    if c = '"' || c = '\\' then '\\' :: c :: acc else c :: acc) []) ++ "\""

/-- Insertion into a list sorted by `le`. -/
def insertBy {α : Type} (le : α → α → Bool) (a : α) : List α → List α
  | [] => [a]
  | b :: l => if le a b then a :: b :: l else b :: insertBy le a l

/-- Insertion sort by `le` (a stable sort, as `sorted` is). -/
def sortBy {α : Type} (le : α → α → Bool) : List α → List α
  | [] => []
  | a :: l => insertBy le a (sortBy le l)

/-- Lexicographic order on character lists (Python string `<=`). -/
def lexLe : List Char → List Char → Bool
  | [], _ => true
  | _ :: _, [] => false
  | a :: as, b :: bs =>
    if a.toNat < b.toNat then true
    else if a.toNat == b.toNat then lexLe as bs
    else false

/-- `json.dumps(v, sort_keys=True)` with fuel: dict entries are sorted by
key before rendering; a `datetime` or resource instance raises `TypeError`
(not JSON serializable). -/
def jsonDumpsF : Nat → PyVal → Except PyErr String
  | 0, _ => .error .recursionError
  | fuel + 1, v =>
    match v with
    | .vNone => .ok "null"
    | .vInt n => .ok (pyStrOfInt n)
    | .vRat q => .ok (pyStrOfRat q)
    | .vStr s => .ok (jsonQuote s)
    | .vDateTime _ =>
      .error (.typeError "Object of type datetime is not JSON serializable")
    | .vInst _ => .error (.typeError "Object is not JSON serializable")
    | .vList l => do
      let parts ← l.mapM (fun x => jsonDumpsF fuel x)
      .ok ("[" ++ joinParts ", " parts ++ "]")
    | .vDict l => do
      let parts ← (sortBy (fun a b => lexLe a.1.data b.1.data) l).mapM (fun kv => do
        let r ← jsonDumpsF fuel kv.2
        pure (jsonQuote kv.1 ++ ": " ++ r))
      .ok ("\x7b" ++ joinParts ", " parts ++ "\x7d")

/-- `json.dumps` of the `{field_id: DynamicAttr}` dict with
`sort_keys=True`: `sorted` orders the integer keys numerically, each key is
then rendered as a JSON string, and each `DynamicAttr` named tuple as a
JSON array. -/
def jsonDumpDynDict (fuel : Nat) (d : List (Int × PyDynAttr)) :
    Except PyErr String := do
  let parts ← (sortBy (fun a b => decide (a.1 ≤ b.1)) d).mapM (fun kv => do
    let r ← jsonDumpsF fuel (.vList [.vInt kv.2.field_id, kv.2.label, kv.2.value])
    pure (jsonQuote (pyStrOfInt kv.1) ++ ": " ++ r))
  .ok ("\x7b" ++ joinParts ", " parts ++ "\x7d")

/-- The canonical string `json.dumps(self.to_tuple(), sort_keys=True)`
whose Python `hash` is the resource's hash value (the named tuple renders
as a JSON array). -/
def resourceHashKey (i : PyInstance) : Except PyErr String := do
  let t ← toTuple i
  let parts ← t.1.mapM (fun x => jsonDumpsF pyRecLimit x)
  let dd ← jsonDumpDynDict pyRecLimit t.2.1
  .ok ("[" ++ joinParts ", " (parts ++ [dd, jsonQuote t.2.2]) ++ "]")

/-! ## Lifecycle verbs (models.py lines 215-273) -/

/-- Observable side effects of one verb invocation: whether
`_check_client` ran, how many `authenticate()` calls were made, and whether
the type-specific hook ran.  `VerbTrace` is the "no network call"
instrumentation. -/
structure VerbTrace where
  clientChecked : Bool
  authCalls : Nat
  hookCalls : Nat
deriving DecidableEq, Repr

/-- `_check_client` (models.py lines 267-273): the explicit argument wins
over the stored reference, no client raises `PersonioError`, an
unauthenticated client is authenticated first.  Returns the resolved
client and the number of `authenticate()` calls. -/
def checkClient (selfClient argClient : Option Client) :
    Except PyErr (Client × Nat) :=
  match (match argClient with | some c => some c | none => selfClient) with
  | none => .error .personioError
  | some c => if c.authenticated then .ok (c, 0) else .ok (⟨true⟩, 1)

/-- The shared body of `create`/`update`/`delete` (models.py lines 237-242,
247-252, 257-262): capability flag first, then client resolution, then the
type-specific hook. -/
def runVerb (flag : Bool) (verb : String) (clsName : String)
    (hook : Client → Except PyErr PyVal) (selfClient argClient : Option Client) :
    Except PyErr PyVal × VerbTrace :=
  if flag then
    match checkClient selfClient argClient with
    | .error e => (.error e, ⟨true, 0, 0⟩)
    | .ok (c, n) => (hook c, ⟨true, n, 1⟩)
  else (.error (.unsupportedMethodError verb clsName), ⟨false, 0, 0⟩)

/-- `WritablePersonioResource._create` (models.py lines 244-245): raises
`UnsupportedMethodError('create', cls)`. -/
def baseCreateHook (clsName : String) : Client → Except PyErr PyVal :=
  fun _ => .error (.unsupportedMethodError "create" clsName)

/-- `WritablePersonioResource._update` (models.py lines 254-255): the body
evaluates `UnsupportedMethodError('update', self.__class__)` but never
raises it — the expression statement has no `raise` — so the hook returns
`None`. -/
def baseUpdateHook (_clsName : String) : Client → Except PyErr PyVal :=
  fun _ => .ok .vNone

/-- `WritablePersonioResource._delete` (models.py lines 264-265): likewise
constructs `UnsupportedMethodError('delete', self.__class__)` without
`raise` and returns `None`. -/
def baseDeleteHook (_clsName : String) : Client → Except PyErr PyVal :=
  fun _ => .ok .vNone

/-- The capability flags of `WritablePersonioResource` (lines 217-219). -/
def writableBaseCanCreate : Bool := true

def writableBaseCanUpdate : Bool := true

def writableBaseCanDelete : Bool := true

/-- `Employee._can_delete = False` (models.py line 416). -/
def employeeCanDelete : Bool := false

/-- `Employee.delete(client)`: `Employee` does not override `_delete`, so
the hook is the base one; the flag is checked first. -/
def employeeDelete (selfClient argClient : Option Client) :
    Except PyErr PyVal × VerbTrace :=
  runVerb employeeCanDelete "delete" "Employee" (baseDeleteHook "Employee")
    selfClient argClient

/-! ## Shared helper lemmas -/

theorem pyStartsWith_dynamic_append (r : String) :
    pyStartsWith ("dynamic_" ++ r) "dynamic_" = true := by
  simp [pyStartsWith, List.isPrefixOf, String.data_append]

theorem pySplitRest_dynamic_append (r : String) :
    pySplitRest '_' ("dynamic_" ++ r) = some r := by
  simp [pySplitRest, splitRestAux, String.data_append]

/-! ## C1: the base lifecycle hooks -/

/-- C1: on a writable resource type that overrides no lifecycle hook, with
every capability flag at its default `True` and an authenticated client,
the claim says each verb reaches the base hook and raises
`UnsupportedOperation`.  Evaluating the code: `create` does error, but
`update` and `delete` return `None` normally (their base hooks construct
`UnsupportedMethodError` without raising it), refuting the claim for those
two verbs. -/
theorem c1_base_hooks_eval :
    runVerb writableBaseCanCreate "create" "WritablePersonioResource"
        (baseCreateHook "WritablePersonioResource") (some ⟨true⟩) none
      = (.error (.unsupportedMethodError "create" "WritablePersonioResource"),
         ⟨true, 0, 1⟩) ∧
    runVerb writableBaseCanUpdate "update" "WritablePersonioResource"
        (baseUpdateHook "WritablePersonioResource") (some ⟨true⟩) none
      = (.ok .vNone, ⟨true, 0, 1⟩) ∧
    runVerb writableBaseCanDelete "delete" "WritablePersonioResource"
        (baseDeleteHook "WritablePersonioResource") (some ⟨true⟩) none
      = (.ok .vNone, ⟨true, 0, 1⟩) :=
  ⟨rfl, rfl, rfl⟩

/-! ## C4: `delete()` with `canDelete = false` -/

/-- C4: `Employee` has `_can_delete = False`, so `delete()` — with or
without a client argument, stored or not — raises
`UnsupportedMethodError("delete", Employee)` and performs no network call:
`_check_client` never runs, `authenticate()` is never called, and no verb
hook runs. -/
theorem c4_employee_delete_no_network (selfClient argClient : Option Client) :
    employeeDelete selfClient argClient
      = (.error (.unsupportedMethodError "delete" "Employee"), ⟨false, 0, 0⟩) :=
  rfl

/-! ## C9: `DynamicAttr.from_dict` validation and round-trip -/

/-- C9: a key without the reserved `dynamic_` prefix makes
`DynamicAttr.from_dict` raise the malformed-key `ValueError` (the spec's
`MalformedFieldKey`), never silently coercing; and on key `"dynamic_42"`
with `{"label": "Size", "value": "L"}` it yields the dynamic attribute
`(42, "Size", "L")`, whose `to_dict` reproduces the original mapping. -/
theorem c9_dynamic_attr_parse :
    (∀ (key : String) (d : PyVal), pyStartsWith key "dynamic_" = false →
      dynAttrFromDict key d = .error (.valueError
        ("dynamic attribute '" ++ key ++ "' does not start with 'dynamic_'"))) ∧
    dynAttrFromDict "dynamic_42"
        (.vDict [("label", .vStr "Size"), ("value", .vStr "L")])
      = .ok (.mk 42 (.vStr "Size") (.vStr "L")) ∧
    dynAttrToDict (.mk 42 (.vStr "Size") (.vStr "L"))
      = .vDict [("label", .vStr "Size"), ("value", .vStr "L")] := by
  refine ⟨?_, rfl, rfl⟩
  intro key d h
  simp [dynAttrFromDict, h]

/-- Witness for `c9_dynamic_attr_parse` at the non-prefixed key `"foo"`. -/
theorem c9_dynamic_attr_parse_witness :
    pyStartsWith "foo" "dynamic_" = false ∧
    dynAttrFromDict "foo" (.vDict []) = .error (.valueError
      ("dynamic attribute '" ++ "foo" ++ "' does not start with 'dynamic_'")) :=
  ⟨rfl, c9_dynamic_attr_parse.1 "foo" (.vDict []) rfl⟩

/-! ## C10: `dynamic_<suffix>` with a non-integer suffix -/

/-- C10: a key `dynamic_<suffix>` whose suffix is not an integer literal
passes the reserved-prefix check, and `DynamicAttr.from_dict` fails with
the `ValueError` raised by `int(suffix)`; consequently `from_dict` of a
payload containing such a key fails with that error — the key is not
dropped and no warning is logged (shown concretely for `"dynamic_abc"`). -/
theorem c10_dynamic_bad_suffix :
    (∀ (sfx : String) (d : PyVal) (e : PyErr), pyIntOfString sfx = .error e →
      dynAttrFromDict ("dynamic_" ++ sfx) d = .error e) ∧
    (employeeFromDict none
        [("dynamic_abc", .vDict [("label", .vNone), ("value", .vStr "x")])]
        initState
      = (setLabel initState "Employee" "dynamic_abc" .vNone,
         .error (.valueError "invalid literal for int() with base 10: 'abc'"))) ∧
    (setLabel initState "Employee" "dynamic_abc" PyVal.vNone).logged = [] := by
  refine ⟨?_, rfl, rfl⟩
  intro sfx d e h
  simp [dynAttrFromDict, pyStartsWith_dynamic_append, pySplitRest_dynamic_append, h,
    bind, Except.bind]

/-- Witness for `c10_dynamic_bad_suffix` at the suffix `"abc"`. -/
theorem c10_dynamic_bad_suffix_witness :
    pyIntOfString "abc"
      = .error (.valueError "invalid literal for int() with base 10: 'abc'") ∧
    dynAttrFromDict ("dynamic_" ++ "abc") (.vDict [])
      = .error (.valueError "invalid literal for int() with base 10: 'abc'") :=
  ⟨rfl, c10_dynamic_bad_suffix.1 "abc" (.vDict []) _ rfl⟩

/-! ## C2: `to_dict` never serializes -/

/-- C2: the claim says `to_dict` emits `mapping.serialize(value)` for each
non-`None` local value.  Evaluating the code on an `Employee` whose
`hire_date` is `datetime(1999, 1, 2, 3, 4, 5)`: `to_dict` emits the raw
`datetime` object under `'value'` (and correctly omits every `None`
field), while the mapping's `serialize` yields the string `"1999-01-02"` —
`to_dict` never calls `serialize`, refuting the emitted-value part of the
claim. -/
theorem c2_to_dict_eval :
    ∃ emp,
      employeeNew none [] [("hire_date", .vDateTime ⟨1999, 1, 2, 3, 4, 5, none⟩)]
        = .ok emp ∧
      instToDict initState emp
        = .ok [("hire_date", .vDict [("label", .vNone),
            ("value", .vDateTime ⟨1999, 1, 2, 3, 4, 5, none⟩)])] ∧
      serializeField initState .date (.vDateTime ⟨1999, 1, 2, 3, 4, 5, none⟩)
        = .ok (.vStr "1999-01-02") ∧
      PyVal.vDateTime ⟨1999, 1, 2, 3, 4, 5, none⟩ ≠ .vStr "1999-01-02" := by
  refine ⟨_, rfl, rfl, rfl, by simp⟩

/-! ## C3, counterexample: decode-encode does not reproduce the wire pairs -/

/-- C3 fails as stated: the payload `{"id": {label: None, value: "7"}}`
contains only known API field names, but decoding coerces the numeric
string to the integer `7` and `to_dict` emits that local value, so the
round-tripped `(apiFieldName, value)` pair set is `{("id", 7)}`, not the
input's `{("id", "7")}`. -/
theorem c3_roundtrip_counterexample :
    ∃ st1 emp out,
      employeeFromDict none
          [("id", .vDict [("label", .vNone), ("value", .vStr "7")])] initState
        = (st1, .ok emp) ∧
      instToDict st1 emp = .ok out ∧
      out.map (fun kv => (kv.1, pyGetItem kv.2 "value")) = [("id", .ok (.vInt 7))] ∧
      [("id", .vDict [("label", .vNone), ("value", .vStr "7")])].map
          (fun kv => (kv.1, pyGetItem kv.2 "value")) = [("id", .ok (.vStr "7"))] ∧
      (PyVal.vInt 7) ≠ .vStr "7" := by
  refine ⟨_, _, _, rfl, rfl, rfl, rfl, by simp⟩

/-! ## C6, counterexample: the object-mapping round-trip fails -/

/-- C6 fails for the object kind: for the `supervisor` mapping
(`ObjectFieldMapping(..., ShortEmployee)`) and a legal `ShortEmployee`
value, `serialize` yields the empty payload (the class declares no field
mappings), and `deserialize` of that payload fails with a `TypeError`
because `ShortEmployee.__init__` requires four arguments that
`from_dict({})` cannot supply — so `deserialize(serialize(v))` raises
instead of returning `v`. -/
theorem c6_object_roundtrip_counterexample :
    serializeField initState (.obj .shortEmployee)
        (.vInst (.mk "ShortEmployee"
          [("id_", .vInt 1), ("first_name", .vStr "Alan"),
           ("last_name", .vStr "Turing"), ("email", .vStr "alan@example.org")]
          none none))
      = .ok (.vDict []) ∧
    deserializeFieldF pyRecLimit (.obj .shortEmployee) (.vDict []) initState
      = (initState,
         .error (.typeError "__init__() missing required positional arguments")) :=
  ⟨rfl, rfl⟩

/-! ## C6, amended: round-trip for the plain, numeric and list kinds -/

/-- The recursion depth `deserialize` needs for a mapping kind. -/
def kindDepth : FieldKind → Nat
  | .listOf inner => kindDepth inner + 1
  | _ => 1

/-- Legal local values of the non-date, non-object mapping kinds: strings
for the plain (`field_type=str`) mapping, non-string numbers for the
numeric mapping, elementwise-legal lists for the list mapping. -/
inductive LegalScalar : FieldKind → PyVal → Prop where
  | str (s : String) : LegalScalar .plainStr (.vStr s)
  | int (toInt : Bool) (n : Int) : LegalScalar (.numeric toInt) (.vInt n)
  | rat (toInt : Bool) (q : Rat) : LegalScalar (.numeric toInt) (.vRat q)
  | list (inner : FieldKind) (l : List PyVal)
      (h : ∀ v ∈ l, LegalScalar inner v) : LegalScalar (.listOf inner) (.vList l)

/-- C6 amended: for the plain, numeric and list-of-(plain|numeric) mapping
kinds and every legal value `v`, `deserialize(serialize(v))` returns `v`
(and leaves the process state untouched), for any recursion budget
covering the kind's nesting depth.  The object kind is excluded: on the
repository's concrete nested types the round-trip raises
(`c6_object_roundtrip_counterexample`). -/
theorem c6_scalar_roundtrip (k : FieldKind) (v : PyVal) (st : PyState) (f : Nat)
    (hl : LegalScalar k v) (hf : kindDepth k ≤ f) :
    ∃ w, serializeField st k v = .ok w ∧
      deserializeFieldF f k w st = (st, .ok v) := by
  induction hl generalizing f with
  | str s =>
    obtain ⟨f', rfl⟩ : ∃ f', f = f' + 1 := ⟨f - 1, by simp [kindDepth] at hf; omega⟩
    exact ⟨.vStr s, rfl, rfl⟩
  | int toInt n =>
    obtain ⟨f', rfl⟩ : ∃ f', f = f' + 1 := ⟨f - 1, by simp [kindDepth] at hf; omega⟩
    exact ⟨.vInt n, rfl, rfl⟩
  | rat toInt q =>
    obtain ⟨f', rfl⟩ : ∃ f', f = f' + 1 := ⟨f - 1, by simp [kindDepth] at hf; omega⟩
    exact ⟨.vRat q, rfl, rfl⟩
  | list inner l h ih =>
    obtain ⟨f', rfl⟩ : ∃ f', f = f' + 1 := ⟨f - 1, by simp [kindDepth] at hf; omega⟩
    have hf' : kindDepth inner ≤ f' := by simp [kindDepth] at hf; omega
    have hlist : ∃ ws, serListAux (fun x => serializeField st inner x) l = .ok ws ∧
        deserListAux (fun x stx => deserializeFieldF f' inner x stx) ws st
          = (st, .ok l) := by
      clear hf
      induction l with
      | nil => exact ⟨[], rfl, rfl⟩
      | cons x xs ihl =>
        obtain ⟨w, hw1, hw2⟩ := ih x (by simp) f' hf'
        obtain ⟨ws, hws1, hws2⟩ := ihl (fun v hv => h v (by simp [hv]))
          (fun v hv => ih v (by simp [hv]))
        refine ⟨w :: ws, ?_, ?_⟩
        · simp [serListAux, hw1, hws1, bind, Except.bind]
        · simp [deserListAux, hw2, hws2]
    obtain ⟨ws, hws1, hws2⟩ := hlist
    refine ⟨.vList ws, ?_, ?_⟩
    · simp [serializeField, hws1, Except.map]
    · simp [deserializeFieldF, hws2]

/-- Witness for `c6_scalar_roundtrip` at the list-of-int mapping kind and
the value `[3]`. -/
theorem c6_scalar_roundtrip_witness :
    LegalScalar (.listOf (.numeric true)) (.vList [.vInt 3]) ∧
    kindDepth (.listOf (.numeric true)) ≤ pyRecLimit ∧
    ∃ w, serializeField initState (.listOf (.numeric true)) (.vList [.vInt 3]) = .ok w ∧
      deserializeFieldF pyRecLimit (.listOf (.numeric true)) w initState
        = (initState, .ok (.vList [.vInt 3])) := by
  have hl : LegalScalar (.listOf (.numeric true)) (.vList [.vInt 3]) := by
    refine .list _ _ ?_
    intro v hv
    simp only [List.mem_singleton] at hv
    subst hv
    exact .int true 3
  exact ⟨hl, by decide,
    c6_scalar_roundtrip _ _ initState pyRecLimit hl (by decide)⟩

/-! ## Round-trip of decimal rendering and `int()` parsing -/

theorem natDigitsAux_digits (f : Nat) : ∀ (n : Nat), ∀ c ∈ natDigitsAux f n,
    isDigitChar c = true := by
  induction f with
  | zero => intro n c hc; simp [natDigitsAux] at hc
  | succ f ih =>
    intro n c hc
    cases n with
    | zero => simp [natDigitsAux] at hc
    | succ m =>
      simp only [natDigitsAux, List.mem_cons] at hc
      rcases hc with rfl | hc
      · exact (digitChar_facts _).2
      · exact ih _ c hc

theorem digitsValAux_append (acc : Nat) (xs ys : List Char) :
    digitsValAux acc (xs ++ ys) = match digitsValAux acc xs with
      | some a => digitsValAux a ys
      | none => none := by
  induction xs generalizing acc with
  | nil => simp [digitsValAux]
  | cons c cs ih =>
    simp only [List.cons_append, digitsValAux]
    split
    · exact ih _
    · rfl

theorem digitsValAux_natDigitsAux (f : Nat) : ∀ (n acc : Nat), n ≤ f →
    digitsValAux acc ((natDigitsAux f n).reverse)
      = some (acc * 10 ^ (natDigitsAux f n).length + n) := by
  induction f with
  | zero =>
    intro n acc h
    interval_cases n
    simp [natDigitsAux, digitsValAux]
  | succ f ih =>
    intro n acc h
    cases n with
    | zero => simp [natDigitsAux, digitsValAux]
    | succ m =>
      simp only [natDigitsAux, List.reverse_cons]
      rw [digitsValAux_append, ih ((m + 1) / 10) acc (by omega), digitChar_mod]
      simp only [digitsValAux, (digitChar_facts (m + 1)).2, if_true,
        (digitChar_facts (m + 1)).1, List.length_cons]
      congr 1
      have h10 : (m + 1) / 10 * 10 + (m + 1) % 10 = m + 1 := by omega
      calc (acc * 10 ^ (natDigitsAux f ((m + 1) / 10)).length + (m + 1) / 10) * 10
            + (m + 1) % 10
          = acc * (10 ^ (natDigitsAux f ((m + 1) / 10)).length * 10)
            + ((m + 1) / 10 * 10 + (m + 1) % 10) := by ring
        _ = acc * 10 ^ ((natDigitsAux f ((m + 1) / 10)).length + 1) + (m + 1) := by
            rw [h10, pow_succ]

theorem digitsVal_natToChars (n : Nat) : digitsVal (natToChars n) = some n := by
  by_cases h : n = 0
  · subst h; rfl
  · simp only [natToChars, if_neg h]
    have hval := digitsValAux_natDigitsAux n n 0 le_rfl
    cases hrev : (natDigitsAux n n).reverse with
    | nil =>
      exfalso
      cases n with
      | zero => exact h rfl
      | succ m => simp [natDigitsAux] at hrev
    | cons c cs =>
      rw [hrev] at hval
      simpa [digitsVal] using hval

theorem natToChars_digits (n : Nat) : ∀ c ∈ natToChars n, isDigitChar c = true := by
  by_cases h : n = 0
  · subst h
    intro c hc
    simp [natToChars] at hc
    subst hc
    rfl
  · simp only [natToChars, if_neg h]
    intro c hc
    exact natDigitsAux_digits n n c (List.mem_reverse.mp hc)

theorem isDigitChar_toNat_ge (c : Char) (h : isDigitChar c = true) : 48 ≤ c.toNat := by
  simp [isDigitChar] at h
  exact h.1

theorem digit_ne_space (c : Char) (h : isDigitChar c = true) : ¬(c = ' ') := by
  intro he
  subst he
  simp [isDigitChar] at h

theorem digit_ne_minus (c : Char) (h : isDigitChar c = true) : ¬(c = '-') := by
  intro he
  subst he
  simp [isDigitChar] at h

theorem digit_ne_plus (c : Char) (h : isDigitChar c = true) : ¬(c = '+') := by
  intro he
  subst he
  simp [isDigitChar] at h

theorem dropWhile_space_of_digits (l : List Char)
    (h : ∀ c ∈ l, isDigitChar c = true) : l.dropWhile (· = ' ') = l := by
  cases l with
  | nil => rfl
  | cons c cs =>
    have := digit_ne_space c (h c (by simp))
    simp [List.dropWhile_cons, this]

theorem pyIntOfString_natToChars (n : Nat) :
    pyIntOfString (String.mk (natToChars n)) = .ok (n : Int) := by
  have hd := natToChars_digits n
  have hstrip : (((natToChars n).dropWhile (· = ' ')).reverse.dropWhile
      (· = ' ')).reverse = natToChars n := by
    rw [dropWhile_space_of_digits _ hd,
      dropWhile_space_of_digits _ (fun c hc => hd c (List.mem_reverse.mp hc)),
      List.reverse_reverse]
  have hcore : pyIntOfString (String.mk (natToChars n))
      = pyIntOfChars (String.mk (natToChars n)) (natToChars n) := by
    rw [pyIntOfString, show (String.mk (natToChars n)).data = natToChars n from rfl,
      hstrip]
  rw [hcore]
  cases hcs : natToChars n with
  | nil =>
    exfalso
    by_cases h : n = 0
    · subst h; simp [natToChars] at hcs
    · simp only [natToChars, if_neg h] at hcs
      cases n with
      | zero => exact h rfl
      | succ m => simp [natDigitsAux] at hcs
  | cons c cs =>
    have hc := hd c (by rw [hcs]; simp)
    have hdv : digitsVal (c :: cs) = some n := by rw [← hcs]; exact digitsVal_natToChars n
    simp only [pyIntOfChars, digit_ne_minus c hc, if_false, digit_ne_plus c hc,
      ite_false, hdv]

/-! ## Structured payload entries for the round-trip/warning theorems -/

/-- A wire entry `{"label": lab, "value": v}`. -/
def lv (lab v : PyVal) : PyVal := .vDict [("label", lab), ("value", v)]

theorem lv_label (lab v : PyVal) : pyGetItem (lv lab v) "label" = .ok lab := rfl

theorem lv_value (lab v : PyVal) : pyGetItem (lv lab v) "value" = .ok v := rfl

/-- The local field name a payload key is decoded into. -/
def classFieldOf (key : String) : String :=
  ((fieldMappingFor employeeMappings key).map FieldMappingM.class_field).getD ""

/-- The key names a plain (`field_type=str`) `Employee` mapping. -/
def plainKnown (key : String) : Bool :=
  match fieldMappingFor employeeMappings key with
  | some fm => fm.kind == .plainStr
  | none => false

/-- The key is neither a known API field nor a dynamic key. -/
def unknownKey (key : String) : Bool :=
  (fieldMappingFor employeeMappings key).isNone && !(pyStartsWith key "dynamic_")

/-- The deduplicated warning text for an unexpected key
(`cls.__class__.__name__` is the metaclass name `"type"`). -/
def warnMsg (key : String) : String :=
  "unexpected field '" ++ key ++ "' in class type"

/-- A structured payload entry: a known plain field with a string value, a
dynamic custom field (canonical key, string label and value), or an
unrecognized field. -/
inductive SEntry where
  | plain (key : String) (label : PyVal) (value : String)
  | dynE (fid : Nat) (label value : String)
  | unknown (key : String) (label value : PyVal)

/-- The wire form of a structured entry. -/
def SEntry.render : SEntry → String × PyVal
  | .plain k lab s => (k, lv lab (.vStr s))
  | .dynE fid lab v =>
    ("dynamic_" ++ String.mk (natToChars fid), lv (.vStr lab) (.vStr v))
  | .unknown k lab v => (k, lv lab v)

/-- Well-formedness of a structured entry for the `Employee` table. -/
def SEntry.ok : SEntry → Prop
  | .plain k _ _ => plainKnown k = true
  | .dynE _ _ _ => True
  | .unknown k _ _ => unknownKey k = true

/-- The state transition `_map_fields` performs for one entry. -/
def SEntry.stepState (st : PyState) : SEntry → PyState
  | .plain k lab _ => setLabel st "Employee" k lab
  | .dynE fid lab _ =>
    setLabel st "Employee" ("dynamic_" ++ String.mk (natToChars fid)) (.vStr lab)
  | .unknown k lab _ => logOnce (setLabel st "Employee" k lab) WARNING (warnMsg k)

/-- The kwargs transition `_map_fields` performs for one entry. -/
def SEntry.stepKwargs (kw : List (String × PyVal)) : SEntry → List (String × PyVal)
  | .plain k _ s => dictInsert kw (classFieldOf k) (.vStr s)
  | _ => kw

/-- The dynamic-list transition `_map_fields` performs for one entry. -/
def SEntry.stepDyn (dy : List PyDynAttr) : SEntry → List PyDynAttr
  | .dynE fid lab v => dy ++ [.mk (fid : Int) (.vStr lab) (.vStr v)]
  | _ => dy

theorem emp_api_not_dynamic :
    ∀ fm ∈ employeeMappings, pyStartsWith fm.api_field "dynamic_" = false := by
  decide

theorem emp_class_fields_in_params :
    ∀ fm ∈ employeeMappings, fm.class_field ∈ employeeParams := by
  decide

theorem fieldMappingFor_mem (ms : List FieldMappingM) (key : String)
    (fm : FieldMappingM) (h : fieldMappingFor ms key = some fm) :
    fm ∈ ms ∧ fm.api_field = key := by
  unfold fieldMappingFor at h
  have hmem := List.mem_reverse.mp (List.mem_of_find?_eq_some h)
  have hpred := List.find?_some h
  exact ⟨hmem, by simpa using hpred⟩

theorem fieldMappingFor_none_of_dynamic (key : String)
    (h : pyStartsWith key "dynamic_" = true) :
    fieldMappingFor employeeMappings key = none := by
  unfold fieldMappingFor
  rw [List.find?_eq_none]
  intro fm hfm hbeq
  have heq : fm.api_field = key := by simpa using hbeq
  have := emp_api_not_dynamic fm (List.mem_reverse.mp hfm)
  rw [heq, h] at this
  cases this

theorem plainKnown_spec (key : String) (h : plainKnown key = true) :
    ∃ fm, fieldMappingFor employeeMappings key = some fm ∧
      fm.kind = .plainStr ∧ fm.api_field = key ∧
      fm.class_field = classFieldOf key ∧ fm ∈ employeeMappings := by
  unfold plainKnown at h
  cases hfm : fieldMappingFor employeeMappings key with
  | none => rw [hfm] at h; cases h
  | some fm =>
    rw [hfm] at h
    obtain ⟨hmem, hapi⟩ := fieldMappingFor_mem _ _ _ hfm
    exact ⟨fm, rfl, by simpa using h, hapi, by simp [classFieldOf, hfm], hmem⟩

theorem deser_plain (s : String) (st : PyState) :
    deserializeFieldF pyRecLimit .plainStr (.vStr s) st = (st, .ok (.vStr s)) := rfl

/-- The decoding loop on a rendered structured payload: the state, the
kwargs and the dynamic list each evolve by the per-entry step functions. -/
theorem mapFieldsAux_sentries (sel : List SEntry) (hsel : ∀ e ∈ sel, e.ok)
    (st : PyState) (kwargs : List (String × PyVal)) (dy : List PyDynAttr) :
    mapFieldsAux (deserializeFieldF pyRecLimit) "Employee" employeeMappings
      (sel.map SEntry.render) st kwargs dy
    = (sel.foldl SEntry.stepState st,
       .ok (sel.foldl SEntry.stepKwargs kwargs, sel.foldl SEntry.stepDyn dy)) := by
  induction sel generalizing st kwargs dy with
  | nil => rfl
  | cons e rest ih =>
    have hrest : ∀ x ∈ rest, x.ok := fun x hx => hsel x (by simp [hx])
    have he : e.ok := hsel e (by simp)
    cases e with
    | plain k lab s =>
      obtain ⟨fm, hfm, hkind, hapi, hcf, -⟩ := plainKnown_spec k he
      simp only [List.map_cons, SEntry.render, mapFieldsAux, lv_label, lv_value,
        hfm, hkind, deser_plain]
      rw [ih hrest]
      simp [SEntry.stepState, SEntry.stepKwargs, SEntry.stepDyn, hcf]
    | dynE fid lab v =>
      have hpre := pyStartsWith_dynamic_append (String.mk (natToChars fid))
      have hnone := fieldMappingFor_none_of_dynamic _ hpre
      have hdyn : dynAttrFromDict ("dynamic_" ++ String.mk (natToChars fid))
          (lv (.vStr lab) (.vStr v)) = .ok (.mk (fid : Int) (.vStr lab) (.vStr v)) := by
        simp only [dynAttrFromDict, hpre, if_true, pySplitRest_dynamic_append,
          pyIntOfString_natToChars, lv_label, lv_value, bind, Except.bind]
      simp only [List.map_cons, SEntry.render, mapFieldsAux, lv_label, hnone,
        hpre, if_true, hdyn]
      rw [ih hrest]
      simp [SEntry.stepState, SEntry.stepKwargs, SEntry.stepDyn]
    | unknown k lab v =>
      have hu := he
      unfold SEntry.ok unknownKey at hu
      simp only [Bool.and_eq_true, Option.isNone_iff_eq_none, Bool.not_eq_true'] at hu
      obtain ⟨hnone, hpre⟩ := hu
      simp only [List.map_cons, SEntry.render, mapFieldsAux, lv_label, hnone,
        hpre, if_false]
      rw [ih hrest]
      simp [SEntry.stepState, SEntry.stepKwargs, SEntry.stepDyn, warnMsg]

/-! ## Association-list lemmas -/

theorem dictInsert_fresh {κ β : Type} [BEq κ] [LawfulBEq κ]
    (l : List (κ × β)) (k : κ) (v : β) (h : k ∉ l.map Prod.fst) :
    dictInsert l k v = l ++ [(k, v)] := by
  induction l with
  | nil => rfl
  | cons kv rest ih =>
    simp only [List.map_cons, List.mem_cons] at h
    push_neg at h
    simp only [dictInsert, List.cons_append]
    rw [if_neg (by simpa using fun he => h.1 he.symm), ih h.2]

theorem dictInsert_all {κ β : Type} [BEq κ] [LawfulBEq κ] (P : κ × β → Bool)
    (l : List (κ × β)) (k : κ) (v : β) (hl : l.all P = true)
    (hk : P (k, v) = true) : (dictInsert l k v).all P = true := by
  induction l with
  | nil => simpa [dictInsert]
  | cons kv rest ih =>
    simp only [List.all_cons, Bool.and_eq_true] at hl
    simp only [dictInsert]
    split
    · next heq =>
      have : kv.1 = k := by simpa using heq
      simp [List.all_cons, this, hk, hl.2]
    · simp [List.all_cons, hl.1, ih hl.2]

theorem lookup_eq_some_of_nodupKeys {κ β : Type} [BEq κ] [LawfulBEq κ]
    (l : List (κ × β)) (hnd : (l.map Prod.fst).Nodup) (k : κ) (v : β) :
    l.lookup k = some v ↔ (k, v) ∈ l := by
  induction l with
  | nil => simp [List.lookup]
  | cons kv rest ih =>
    simp only [List.map_cons, List.nodup_cons] at hnd
    obtain ⟨a, b⟩ := kv
    by_cases he : k = a
    · subst he
      simp only [List.lookup, beq_self_eq_true]
      constructor
      · intro h
        simp only [Option.some_inj] at h
        simp [h]
      · intro h
        rcases List.mem_cons.mp h with heq | hmem
        · simp only [Prod.mk.injEq] at heq
          simp [heq.2]
        · exact absurd (List.mem_map.mpr ⟨(k, v), hmem, rfl⟩) hnd.1
    · have hbeq : (k == a) = false := by simpa using he
      simp only [List.lookup, hbeq]
      rw [ih hnd.2]
      constructor
      · exact fun h => List.mem_cons.mpr (Or.inr h)
      · intro h
        rcases List.mem_cons.mp h with heq | hmem
        · exact absurd (congrArg Prod.fst heq) he
        · exact hmem

theorem lookup_map_self {β : Type} (l : List String) (hnd : l.Nodup)
    (g : String → β) (q : String) (hq : q ∈ l) :
    (l.map (fun p => (p, g p))).lookup q = some (g q) := by
  induction l with
  | nil => cases hq
  | cons p rest ih =>
    simp only [List.nodup_cons] at hnd
    rcases List.mem_cons.mp hq with rfl | hmem
    · simp [List.lookup]
    · have hne : (q == p) = false := by
        simp only [beq_eq_false_iff_ne, ne_eq]
        intro he
        exact hnd.1 (he ▸ hmem)
      simp only [List.map_cons, List.lookup, hne]
      exact ih hnd.2 hmem

theorem lookup_map_self_none {β : Type} (l : List String)
    (g : String → β) (q : String) (hq : q ∉ l) :
    (l.map (fun p => (p, g p))).lookup q = none := by
  induction l with
  | nil => rfl
  | cons p rest ih =>
    simp only [List.mem_cons] at hq
    push_neg at hq
    have hne : (q == p) = false := by
      simp only [beq_eq_false_iff_ne, ne_eq]
      exact hq.1
    simp only [List.map_cons, List.lookup, hne]
    exact ih hq.2

/-! ## Facts about the `Employee` table (by computation) -/

theorem emp_params_nodup : employeeParams.Nodup := by decide

theorem emp_class_fields_nodup :
    (employeeMappings.map (fun m => m.class_field)).Nodup := by decide

theorem emp_api_fields_nodup :
    (employeeMappings.map (fun m => m.api_field)).Nodup := by decide

theorem classFieldOf_inj (k1 k2 : String) (h1 : plainKnown k1 = true)
    (h2 : plainKnown k2 = true) (he : classFieldOf k1 = classFieldOf k2) :
    k1 = k2 := by
  obtain ⟨fm1, -, -, hapi1, hcf1, hmem1⟩ := plainKnown_spec k1 h1
  obtain ⟨fm2, -, -, hapi2, hcf2, hmem2⟩ := plainKnown_spec k2 h2
  have : fm1 = fm2 :=
    List.inj_on_of_nodup_map emp_class_fields_nodup hmem1 hmem2
      (by rw [hcf1, hcf2, he])
  rw [← hapi1, ← hapi2, this]

/-! ## Characterizing the decode and encode folds on plain payloads -/

theorem stepDyn_all_plain (sel : List (String × PyVal × String)) :
    ∀ (dy : List PyDynAttr),
    (sel.map (fun x => SEntry.plain x.1 x.2.1 x.2.2)).foldl SEntry.stepDyn dy = dy := by
  induction sel with
  | nil => intro dy; rfl
  | cons x rest ih =>
    intro dy
    simp only [List.map_cons, List.foldl_cons, SEntry.stepDyn]
    exact ih dy

theorem plainKwargs_eq (sel : List (String × PyVal × String)) :
    ∀ (acc : List (String × PyVal)),
    ((acc.map Prod.fst) ++ sel.map (fun x => classFieldOf x.1)).Nodup →
    (sel.map (fun x => SEntry.plain x.1 x.2.1 x.2.2)).foldl SEntry.stepKwargs acc
      = acc ++ sel.map (fun x => (classFieldOf x.1, .vStr x.2.2)) := by
  induction sel with
  | nil => intro acc _; simp
  | cons x rest ih =>
    intro acc hnd
    have hfresh : classFieldOf x.1 ∉ acc.map Prod.fst := by
      intro hmem
      have hdisj := (List.nodup_append.mp hnd).2.2
      exact hdisj hmem (by simp)
    simp only [List.map_cons, List.foldl_cons, SEntry.stepKwargs]
    rw [dictInsert_fresh _ _ _ hfresh]
    have hrec := ih (acc ++ [(classFieldOf x.1, PyVal.vStr x.2.2)]) (by simpa using hnd)
    rw [hrec]
    simp

/-- The entry `to_dict` emits for one mapping, if any. -/
def emitOf (cache : List (String × PyVal)) (i : PyInstance) (m : FieldMappingM) :
    Option (String × PyVal) :=
  match i.attrs.lookup m.class_field with
  | none => none
  | some v =>
    if isNoneV v then none
    else some (m.api_field, lv ((cache.lookup m.api_field).getD .vNone) v)

theorem emitOf_eq_some_iff (cache : List (String × PyVal)) (i : PyInstance)
    (m : FieldMappingM) (entry : String × PyVal) :
    emitOf cache i m = some entry ↔ ∃ v, i.attrs.lookup m.class_field = some v ∧
      isNoneV v = false ∧
      entry = (m.api_field, lv ((cache.lookup m.api_field).getD .vNone) v) := by
  cases h : i.attrs.lookup m.class_field with
  | none => simp [emitOf, h]
  | some v =>
    cases hn : isNoneV v with
    | true =>
      simp only [emitOf, h]
      rw [if_pos (by simp [hn])]
      constructor
      · intro hc
        cases hc
      · rintro ⟨v2, hv2, hn2, -⟩
        rw [Option.some_inj] at hv2
        subst hv2
        rw [hn] at hn2
        cases hn2
    | false =>
      simp only [emitOf, h]
      rw [if_neg (by simp [hn])]
      constructor
      · intro hc
        rw [Option.some_inj] at hc
        exact ⟨v, rfl, hn, hc.symm⟩
      · rintro ⟨v2, hv2, -, he⟩
        rw [Option.some_inj] at hv2
        subst hv2
        rw [he]

theorem plainToDictAux_spec (cache : List (String × PyVal)) (i : PyInstance) :
    ∀ (ms : List FieldMappingM) (acc : List (String × PyVal)),
    (∀ m ∈ ms, (i.attrs.lookup m.class_field).isSome = true) →
    ((acc.map Prod.fst) ++ ms.map (fun m => m.api_field)).Nodup →
    plainToDictAux cache i ms acc = .ok (acc ++ ms.filterMap (emitOf cache i)) := by
  intro ms
  induction ms with
  | nil => intro acc _ _; simp [plainToDictAux]
  | cons m rest ih =>
    intro acc hsome hnd
    obtain ⟨v, hv⟩ := Option.isSome_iff_exists.mp (hsome m (by simp))
    have hrest : ∀ m' ∈ rest, (i.attrs.lookup m'.class_field).isSome = true :=
      fun m' hm' => hsome m' (by simp [hm'])
    have hnd' : ((acc.map Prod.fst) ++ rest.map (fun m => m.api_field)).Nodup := by
      obtain ⟨h1, h2, h3⟩ := List.nodup_append.mp hnd
      refine List.nodup_append.mpr ⟨h1, ?_, ?_⟩
      · exact (List.nodup_cons.mp (by simpa using h2)).2
      · intro a ha hb
        exact h3 ha (by simp [hb])
    simp only [plainToDictAux, getattrE, hv, bind, Except.bind]
    cases hn : isNoneV v with
    | true =>
      rw [if_pos rfl, ih acc hrest hnd']
      have hemit : emitOf cache i m = none := by
        unfold emitOf
        rw [hv]
        simp [hn]
      rw [List.filterMap_cons, hemit]
    | false =>
      rw [if_neg (by simp)]
      have hfresh : m.api_field ∉ acc.map Prod.fst := by
        intro hmem
        exact (List.nodup_append.mp hnd).2.2 hmem (by simp)
      rw [dictInsert_fresh _ _ _ hfresh]
      have hrec := ih (acc ++ [(m.api_field,
          PyVal.vDict [("label", (cache.lookup m.api_field).getD PyVal.vNone),
            ("value", v)])]) hrest (by simpa using hnd)
      rw [hrec]
      have hemit : emitOf cache i m = some (m.api_field,
          lv ((cache.lookup m.api_field).getD .vNone) v) := by
        unfold emitOf
        rw [hv]
        simp [hn]
      rw [List.filterMap_cons, hemit]
      simp [lv]

/-- Unfolding `employeeFromDict` on a successful `_map_fields` result. -/
theorem employeeFromDict_ok (client : Option Client) (d : List (String × PyVal))
    (st st' : PyState) (kwargs : List (String × PyVal)) (dynamic : List PyDynAttr)
    (h : mapFieldsGen (deserializeFieldF pyRecLimit) "Employee" employeeMappings d st
      = (st', .ok (kwargs, dynamic))) :
    employeeFromDict client d st = (st', employeeNew client dynamic kwargs) := by
  rw [employeeFromDict, h]

/-- C3 amended: for every payload whose keys are distinct known *plain*
(string-typed) API field names of `Employee` and whose values are strings,
decoding with `from_dict` and re-encoding with `to_dict` reproduces exactly
the same set of `(apiFieldName, value)` pairs (labels and entry order
aside).  The restriction to plain string fields is forced by
`c3_roundtrip_counterexample`: numeric and date mappings deserialize to a
different local value which `to_dict` then emits. -/
theorem c3_roundtrip_plain (sel : List (String × PyVal × String))
    (hkeys : ∀ x ∈ sel, plainKnown x.1 = true)
    (hnodup : (sel.map (fun x => x.1)).Nodup) (st0 : PyState) :
    ∃ st1 emp out,
      employeeFromDict none (sel.map (fun x => (x.1, lv x.2.1 (.vStr x.2.2)))) st0
        = (st1, .ok emp) ∧
      instToDict st1 emp = .ok out ∧
      ∀ (k : String) (ev : Except PyErr PyVal),
        ((k, ev) ∈ out.map (fun kv => (kv.1, pyGetItem kv.2 "value")) ↔
         (k, ev) ∈ (sel.map (fun x => (x.1, lv x.2.1 (.vStr x.2.2)))).map
           (fun kv => (kv.1, pyGetItem kv.2 "value"))) := by
  set kwargsL := sel.map (fun x => (classFieldOf x.1, PyVal.vStr x.2.2)) with hkw
  have hcfs : (sel.map (fun x => classFieldOf x.1)).Nodup := by
    have hmm : sel.map (fun x => classFieldOf x.1)
        = (sel.map (fun x => x.1)).map classFieldOf := by
      simp [List.map_map, Function.comp]
    rw [hmm]
    refine List.Nodup.map_on ?_ hnodup
    intro k1 h1 k2 h2 he
    obtain ⟨x1, hx1, rfl⟩ := List.mem_map.mp h1
    obtain ⟨x2, hx2, rfl⟩ := List.mem_map.mp h2
    exact classFieldOf_inj _ _ (hkeys x1 hx1) (hkeys x2 hx2) he
  have hknd : (kwargsL.map Prod.fst).Nodup := by
    rw [hkw]
    simpa [List.map_map, Function.comp] using hcfs
  have hsel : ∀ e ∈ sel.map (fun x => SEntry.plain x.1 x.2.1 x.2.2), e.ok := by
    intro e he
    obtain ⟨x, hx, rfl⟩ := List.mem_map.mp he
    exact hkeys x hx
  have hpayload : (sel.map (fun x => SEntry.plain x.1 x.2.1 x.2.2)).map SEntry.render
      = sel.map (fun x => (x.1, lv x.2.1 (.vStr x.2.2))) := by
    simp [List.map_map, Function.comp, SEntry.render]
  have hmf := mapFieldsAux_sentries (sel.map (fun x => SEntry.plain x.1 x.2.1 x.2.2))
    hsel st0 [] []
  rw [hpayload, plainKwargs_eq sel [] (by simpa using hcfs),
    stepDyn_all_plain sel [], List.nil_append] at hmf
  set st1 := (sel.map (fun x => SEntry.plain x.1 x.2.1 x.2.2)).foldl SEntry.stepState st0
    with hst1
  have hkwall : kwargsL.all (fun kv => employeeParams.contains kv.1) = true := by
    rw [List.all_eq_true]
    intro kv hkv
    rw [hkw] at hkv
    obtain ⟨x, hx, rfl⟩ := List.mem_map.mp hkv
    obtain ⟨fm, -, -, -, hcf, hmem⟩ := plainKnown_spec x.1 (hkeys x hx)
    exact List.elem_eq_true_of_mem (hcf ▸ emp_class_fields_in_params fm hmem)
  have hnew : employeeNew none [] kwargsL = .ok (.mk "Employee"
      (employeeParams.map (fun p => (p, (kwargsL.lookup p).getD .vNone)))
      (some []) none) := by
    rw [employeeNew, if_pos hkwall]
    rfl
  set emp := PyInstance.mk "Employee"
    (employeeParams.map (fun p => (p, (kwargsL.lookup p).getD .vNone)))
    (some []) none with hemp
  have hdecode : employeeFromDict none
      (sel.map (fun x => (x.1, lv x.2.1 (.vStr x.2.2)))) st0 = (st1, .ok emp) := by
    rw [employeeFromDict_ok none _ st0 st1 kwargsL [] (by rw [mapFieldsGen]; exact hmf),
      hnew]
  have hattrs_lookup : ∀ cf ∈ employeeParams,
      emp.attrs.lookup cf = some ((kwargsL.lookup cf).getD .vNone) := by
    intro cf hcf
    show (employeeParams.map
      (fun p => (p, (kwargsL.lookup p).getD PyVal.vNone))).lookup cf = _
    exact lookup_map_self _ emp_params_nodup _ _ hcf
  have hsome : ∀ m ∈ employeeMappings,
      (emp.attrs.lookup m.class_field).isSome = true := by
    intro m hm
    rw [hattrs_lookup _ (emp_class_fields_in_params m hm)]
    rfl
  set cache := labelsOf st1 "Employee" with hcache
  have hbase := plainToDictAux_spec cache emp employeeMappings []
    hsome (by simpa using emp_api_fields_nodup)
  have htodict : instToDict st1 emp
      = .ok (employeeMappings.filterMap (emitOf cache emp)) := by
    rw [instToDict,
      show emp.cls = "Employee" from rfl,
      show mappingsOf "Employee" = employeeMappings from rfl,
      ← hcache, hbase]
    rw [show emp.dyn = some [] from rfl]
    simp [isWritableClass, bind, Except.bind]
  refine ⟨st1, emp, _, hdecode, htodict, ?_⟩
  intro k ev
  have hin : (k, ev) ∈ (sel.map (fun x => (x.1, lv x.2.1 (.vStr x.2.2)))).map
      (fun kv => (kv.1, pyGetItem kv.2 "value"))
      ↔ ∃ x ∈ sel, x.1 = k ∧ ev = .ok (.vStr x.2.2) := by
    rw [List.map_map]
    constructor
    · intro h
      obtain ⟨x, hx, he⟩ := List.mem_map.mp h
      simp only [Function.comp_apply, lv_value, Prod.mk.injEq] at he
      exact ⟨x, hx, he.1, he.2.symm⟩
    · rintro ⟨x, hx, rfl, rfl⟩
      refine List.mem_map.mpr ⟨x, hx, ?_⟩
      simp [Function.comp, lv_value]
  have hout : (k, ev) ∈ (employeeMappings.filterMap (emitOf cache emp)).map
      (fun kv => (kv.1, pyGetItem kv.2 "value"))
      ↔ ∃ x ∈ sel, x.1 = k ∧ ev = .ok (.vStr x.2.2) := by
    constructor
    · intro h
      obtain ⟨kv, hkv, hfe⟩ := List.mem_map.mp h
      obtain ⟨m, hm, hsome'⟩ := List.mem_filterMap.mp hkv
      obtain ⟨v, hv, hvn, rfl⟩ := (emitOf_eq_some_iff _ _ _ _).mp hsome'
      rw [hattrs_lookup _ (emp_class_fields_in_params m hm)] at hv
      rw [Option.some_inj] at hv
      simp only [lv_value, Prod.mk.injEq] at hfe
      cases hlk : kwargsL.lookup m.class_field with
      | none =>
        rw [hlk] at hv
        rw [← hv] at hvn
        cases hvn
      | some w =>
        rw [hlk] at hv
        simp only [Option.getD_some] at hv
        have hwmem : (m.class_field, w) ∈ kwargsL :=
          (lookup_eq_some_of_nodupKeys kwargsL hknd _ _).mp hlk
        rw [hkw] at hwmem
        obtain ⟨x, hx, hxe⟩ := List.mem_map.mp hwmem
        simp only [Prod.mk.injEq] at hxe
        obtain ⟨fmx, -, -, hapix, hcfx, hmemx⟩ := plainKnown_spec x.1 (hkeys x hx)
        have hfm : fmx = m := List.inj_on_of_nodup_map emp_class_fields_nodup
          hmemx hm (by rw [hcfx, hxe.1])
        refine ⟨x, hx, ?_, ?_⟩
        · rw [← hfe.1, ← hapix, hfm]
        · rw [← hfe.2, ← hv, ← hxe.2]
    · rintro ⟨x, hx, rfl, rfl⟩
      obtain ⟨fmx, -, -, hapix, hcfx, hmemx⟩ := plainKnown_spec x.1 (hkeys x hx)
      have hlk : kwargsL.lookup fmx.class_field = some (.vStr x.2.2) := by
        apply (lookup_eq_some_of_nodupKeys kwargsL hknd _ _).mpr
        rw [hkw, hcfx]
        exact List.mem_map.mpr ⟨x, hx, rfl⟩
      have hemit : emitOf cache emp fmx = some (fmx.api_field,
          lv ((cache.lookup fmx.api_field).getD .vNone) (.vStr x.2.2)) := by
        apply (emitOf_eq_some_iff _ _ _ _).mpr
        refine ⟨.vStr x.2.2, ?_, rfl, rfl⟩
        rw [hattrs_lookup _ (emp_class_fields_in_params fmx hmemx), hlk]
        rfl
      refine List.mem_map.mpr ⟨_, List.mem_filterMap.mpr ⟨fmx, hmemx, hemit⟩, ?_⟩
      rw [lv_value, hapix]
  exact hout.trans hin.symm

/-- Witness for `c3_roundtrip_plain` at the one-field payload
`{"first_name": {label: None, value: "Ada"}}`. -/
theorem c3_roundtrip_plain_witness :
    (∀ x ∈ [("first_name", PyVal.vNone, "Ada")], plainKnown x.1 = true) ∧
    ([("first_name", PyVal.vNone, "Ada")].map (fun x => x.1)).Nodup ∧
    (∃ st1 emp out,
      employeeFromDict none ([("first_name", PyVal.vNone, "Ada")].map
        (fun x => (x.1, lv x.2.1 (.vStr x.2.2)))) initState = (st1, .ok emp) ∧
      instToDict st1 emp = .ok out ∧
      ∀ (k : String) (ev : Except PyErr PyVal),
        ((k, ev) ∈ out.map (fun kv => (kv.1, pyGetItem kv.2 "value")) ↔
         (k, ev) ∈ ([("first_name", PyVal.vNone, "Ada")].map
           (fun x => (x.1, lv x.2.1 (.vStr x.2.2)))).map
           (fun kv => (kv.1, pyGetItem kv.2 "value")))) :=
  ⟨by decide, by decide,
   c3_roundtrip_plain [("first_name", PyVal.vNone, "Ada")] (by decide) (by decide)
     initState⟩

/-! ## C8: unknown-key tolerance and process-wide warning dedup -/

/-- Structured entries whose unknown keys are all the key `"foo"`. -/
def C8OK : SEntry → Prop
  | .plain k _ _ => plainKnown k = true
  | .dynE _ _ _ => True
  | .unknown k _ _ => k = "foo"

instance (e : SEntry) : Decidable (C8OK e) :=
  match e with
  | .plain k _ _ => inferInstanceAs (Decidable (plainKnown k = true))
  | .dynE _ _ _ => inferInstanceAs (Decidable True)
  | .unknown k _ _ => inferInstanceAs (Decidable (k = "foo"))

def isUnknownE : SEntry → Bool
  | .unknown _ _ _ => true
  | _ => false

/-- The payload contains an unrecognized entry. -/
def hasFoo (sel : List SEntry) : Bool := sel.any isUnknownE

theorem fooUnknown : unknownKey "foo" = true := by decide

theorem C8OK_ok (e : SEntry) (h : C8OK e) : e.ok := by
  cases e with
  | plain k lab s => exact h
  | dynE fid lab v => trivial
  | unknown k lab v =>
    have : k = "foo" := h
    subst this
    exact fooUnknown

theorem setLabel_logged (st : PyState) (c k : String) (l : PyVal) :
    (setLabel st c k l).logged = st.logged := rfl

theorem setLabel_uniqueLogs (st : PyState) (c k : String) (l : PyVal) :
    (setLabel st c k l).uniqueLogs = st.uniqueLogs := rfl

/-- After a step for a recognized (plain or dynamic) entry, the log state
is untouched. -/
theorem stepState_log_of_not_unknown (st : PyState) (e : SEntry)
    (h : isUnknownE e = false) :
    (SEntry.stepState st e).logged = st.logged ∧
    (SEntry.stepState st e).uniqueLogs = st.uniqueLogs := by
  cases e with
  | plain k lab s => exact ⟨rfl, rfl⟩
  | dynE fid lab v => exact ⟨rfl, rfl⟩
  | unknown k lab v => cases h

/-- A decode whose unexpected-key message is already in the dedup set
emits nothing. -/
theorem foldState_no_new (sel : List SEntry) :
    ∀ (st : PyState), (∀ e ∈ sel, C8OK e) →
    st.uniqueLogs.contains (warnMsg "foo") = true →
    (sel.foldl SEntry.stepState st).logged = st.logged ∧
    (sel.foldl SEntry.stepState st).uniqueLogs = st.uniqueLogs := by
  induction sel with
  | nil => exact fun st _ _ => ⟨rfl, rfl⟩
  | cons e rest ih =>
    intro st hsel hc
    have hrest : ∀ x ∈ rest, C8OK x := fun x hx => hsel x (by simp [hx])
    rw [List.foldl_cons]
    cases e with
    | plain k lab s => exact ih _ hrest hc
    | dynE fid lab v => exact ih _ hrest hc
    | unknown k lab v =>
      have hk : k = "foo" := hsel (.unknown k lab v) (by simp)
      subst hk
      have hstep : SEntry.stepState st (.unknown "foo" lab v) = setLabel st "Employee" "foo" lab := by
        rw [SEntry.stepState, logOnce]
        rw [setLabel_uniqueLogs, if_pos hc]
      rw [hstep]
      exact ih _ hrest hc

/-- The first decode of a payload containing an unrecognized key emits the
warning exactly once and records it in the dedup set. -/
theorem foldState_first (sel : List SEntry) :
    ∀ (st : PyState), (∀ e ∈ sel, C8OK e) →
    st.uniqueLogs.contains (warnMsg "foo") = false →
    hasFoo sel = true →
    (sel.foldl SEntry.stepState st).logged
      = st.logged ++ [(WARNING, warnMsg "foo")] ∧
    (sel.foldl SEntry.stepState st).uniqueLogs.contains (warnMsg "foo") = true := by
  induction sel with
  | nil => intro st _ _ hfoo; cases hfoo
  | cons e rest ih =>
    intro st hsel hc hfoo
    have hrest : ∀ x ∈ rest, C8OK x := fun x hx => hsel x (by simp [hx])
    rw [List.foldl_cons]
    cases he : isUnknownE e with
    | false =>
      have hstep := stepState_log_of_not_unknown st e he
      have hfoo' : hasFoo rest = true := by
        rw [hasFoo, List.any_cons, he, Bool.false_or] at hfoo
        exact hfoo
      have := ih (SEntry.stepState st e) hrest (by rw [hstep.2]; exact hc) hfoo'
      rw [this.1, hstep.1]
      exact ⟨rfl, this.2⟩
    | true =>
      cases e with
      | plain k lab s => cases he
      | dynE fid lab v => cases he
      | unknown k lab v =>
        have hk : k = "foo" := hsel (.unknown k lab v) (by simp)
        subst hk
        have hstep : SEntry.stepState st (.unknown "foo" lab v)
            = { setLabel st "Employee" "foo" lab with
                logged := st.logged ++ [(WARNING, warnMsg "foo")],
                uniqueLogs := st.uniqueLogs ++ [warnMsg "foo"] } := by
          rw [SEntry.stepState, logOnce, setLabel_uniqueLogs, if_neg (by rw [hc]; simp),
            setLabel_logged]
        rw [hstep]
        have hc2 : (st.uniqueLogs ++ [warnMsg "foo"]).contains (warnMsg "foo") = true := by
          apply List.elem_eq_true_of_mem
          simp
        have := foldState_no_new rest
          { setLabel st "Employee" "foo" lab with
            logged := st.logged ++ [(WARNING, warnMsg "foo")],
            uniqueLogs := st.uniqueLogs ++ [warnMsg "foo"] } hrest hc2
        rw [this.1]
        exact ⟨rfl, by rw [this.2]; exact hc2⟩

theorem stepKwargs_all_params (sel : List SEntry) :
    ∀ (kw : List (String × PyVal)), (∀ e ∈ sel, e.ok) →
    kw.all (fun kv => employeeParams.contains kv.1) = true →
    (sel.foldl SEntry.stepKwargs kw).all
      (fun kv => employeeParams.contains kv.1) = true := by
  induction sel with
  | nil => exact fun kw _ h => h
  | cons e rest ih =>
    intro kw hsel hkw
    have hrest : ∀ x ∈ rest, x.ok := fun x hx => hsel x (by simp [hx])
    rw [List.foldl_cons]
    cases e with
    | plain k lab s =>
      apply ih _ hrest
      apply dictInsert_all _ _ _ _ hkw
      obtain ⟨fm, -, -, -, hcf, hmem⟩ :=
        plainKnown_spec k (hsel (.plain k lab s) (by simp))
      exact List.elem_eq_true_of_mem (hcf ▸ emp_class_fields_in_params fm hmem)
    | dynE fid lab v => exact ih _ hrest hkw
    | unknown k lab v => exact ih _ hrest hkw

theorem stepKwargs_filter (sel : List SEntry) :
    ∀ (kw : List (String × PyVal)),
    (sel.filter (fun e => !isUnknownE e)).foldl SEntry.stepKwargs kw
      = sel.foldl SEntry.stepKwargs kw := by
  induction sel with
  | nil => intro kw; rfl
  | cons e rest ih =>
    intro kw
    cases e with
    | plain k lab s =>
      have hfe : List.filter (fun e => !isUnknownE e) (SEntry.plain k lab s :: rest)
          = SEntry.plain k lab s :: List.filter (fun e => !isUnknownE e) rest := by
        simp [List.filter_cons, isUnknownE]
      rw [hfe, List.foldl_cons, List.foldl_cons, ih]
    | dynE fid lab v =>
      have hfe : List.filter (fun e => !isUnknownE e) (SEntry.dynE fid lab v :: rest)
          = SEntry.dynE fid lab v :: List.filter (fun e => !isUnknownE e) rest := by
        simp [List.filter_cons, isUnknownE]
      rw [hfe, List.foldl_cons, List.foldl_cons, ih]
    | unknown k lab v =>
      have hfe : List.filter (fun e => !isUnknownE e) (SEntry.unknown k lab v :: rest)
          = List.filter (fun e => !isUnknownE e) rest := by
        simp [List.filter_cons, isUnknownE]
      rw [hfe, List.foldl_cons, ih]
      rfl

theorem stepDyn_filter (sel : List SEntry) :
    ∀ (dy : List PyDynAttr),
    (sel.filter (fun e => !isUnknownE e)).foldl SEntry.stepDyn dy
      = sel.foldl SEntry.stepDyn dy := by
  induction sel with
  | nil => intro dy; rfl
  | cons e rest ih =>
    intro dy
    cases e with
    | plain k lab s =>
      have hfe : List.filter (fun e => !isUnknownE e) (SEntry.plain k lab s :: rest)
          = SEntry.plain k lab s :: List.filter (fun e => !isUnknownE e) rest := by
        simp [List.filter_cons, isUnknownE]
      rw [hfe, List.foldl_cons, List.foldl_cons, ih]
    | dynE fid lab v =>
      have hfe : List.filter (fun e => !isUnknownE e) (SEntry.dynE fid lab v :: rest)
          = SEntry.dynE fid lab v :: List.filter (fun e => !isUnknownE e) rest := by
        simp [List.filter_cons, isUnknownE]
      rw [hfe, List.foldl_cons, List.foldl_cons, ih]
    | unknown k lab v =>
      have hfe : List.filter (fun e => !isUnknownE e) (SEntry.unknown k lab v :: rest)
          = List.filter (fun e => !isUnknownE e) rest := by
        simp [List.filter_cons, isUnknownE]
      rw [hfe, List.foldl_cons, ih]
      rfl

/-- C8: decoding a payload with one unrecognized top-level key `"foo"`
succeeds (the key is dropped: the same resource is decoded with or without
the entry) and warns exactly once; a second decode of another payload
containing `"foo"` emits nothing further — the dedup set persists across
calls. -/
theorem c8_unknown_key_warns_once (sel1 sel2 : List SEntry) (st0 : PyState)
    (h1 : ∀ e ∈ sel1, C8OK e) (h2 : ∀ e ∈ sel2, C8OK e)
    (hfoo1 : hasFoo sel1 = true) (_hfoo2 : hasFoo sel2 = true)
    (hfresh : st0.uniqueLogs.contains (warnMsg "foo") = false) :
    ∃ st1 emp1 st2 emp2 st1',
      employeeFromDict none (sel1.map SEntry.render) st0 = (st1, .ok emp1) ∧
      st1.logged = st0.logged ++ [(WARNING, warnMsg "foo")] ∧
      employeeFromDict none (sel2.map SEntry.render) st1 = (st2, .ok emp2) ∧
      st2.logged = st1.logged ∧
      employeeFromDict none
          ((sel1.filter (fun e => !isUnknownE e)).map SEntry.render) st0
        = (st1', .ok emp1) := by
  have hok1 : ∀ e ∈ sel1, e.ok := fun e he => C8OK_ok e (h1 e he)
  have hok2 : ∀ e ∈ sel2, e.ok := fun e he => C8OK_ok e (h2 e he)
  have hall1 := stepKwargs_all_params sel1 [] hok1 rfl
  have hall2 := stepKwargs_all_params sel2 [] hok2 rfl
  obtain ⟨emp1, hemp1⟩ : ∃ emp, employeeNew none (sel1.foldl SEntry.stepDyn [])
      (sel1.foldl SEntry.stepKwargs []) = .ok emp := by
    rw [employeeNew, if_pos hall1]
    exact ⟨_, rfl⟩
  obtain ⟨emp2, hemp2⟩ : ∃ emp, employeeNew none (sel2.foldl SEntry.stepDyn [])
      (sel2.foldl SEntry.stepKwargs []) = .ok emp := by
    rw [employeeNew, if_pos hall2]
    exact ⟨_, rfl⟩
  have hdec1 : employeeFromDict none (sel1.map SEntry.render) st0
      = (sel1.foldl SEntry.stepState st0, .ok emp1) := by
    rw [employeeFromDict_ok none _ st0 _ _ _
      (by rw [mapFieldsGen]; exact mapFieldsAux_sentries sel1 hok1 st0 [] []), hemp1]
  have hlog1 := foldState_first sel1 st0 h1 hfresh hfoo1
  have hdec2 : employeeFromDict none (sel2.map SEntry.render)
      (sel1.foldl SEntry.stepState st0)
      = (sel2.foldl SEntry.stepState (sel1.foldl SEntry.stepState st0), .ok emp2) := by
    rw [employeeFromDict_ok none _ _ _ _ _
      (by rw [mapFieldsGen]; exact mapFieldsAux_sentries sel2 hok2 _ [] []), hemp2]
  have hlog2 := foldState_no_new sel2 (sel1.foldl SEntry.stepState st0) h2 hlog1.2
  have hokF : ∀ e ∈ sel1.filter (fun e => !isUnknownE e), e.ok :=
    fun e he => hok1 e (List.mem_of_mem_filter he)
  have hdecF : employeeFromDict none
      ((sel1.filter (fun e => !isUnknownE e)).map SEntry.render) st0
      = ((sel1.filter (fun e => !isUnknownE e)).foldl SEntry.stepState st0,
         .ok emp1) := by
    rw [employeeFromDict_ok none _ st0 _ _ _
      (by rw [mapFieldsGen]; exact mapFieldsAux_sentries _ hokF st0 [] []),
      stepKwargs_filter, stepDyn_filter, hemp1]
  exact ⟨_, emp1, _, emp2, _, hdec1, hlog1.1, hdec2, hlog2.1, hdecF⟩

/-- Witness for `c8_unknown_key_warns_once`: a first payload with a known
field and the unknown key `"foo"`, then a second payload containing
`"foo"` again, starting from the fresh process state. -/
theorem c8_unknown_key_warns_once_witness :
    (∀ e ∈ [SEntry.plain "first_name" .vNone "Ada",
            SEntry.unknown "foo" .vNone (.vStr "x")], C8OK e) ∧
    (∀ e ∈ [SEntry.unknown "foo" (.vStr "L") (.vStr "y")], C8OK e) ∧
    hasFoo [SEntry.plain "first_name" .vNone "Ada",
            SEntry.unknown "foo" .vNone (.vStr "x")] = true ∧
    hasFoo [SEntry.unknown "foo" (.vStr "L") (.vStr "y")] = true ∧
    initState.uniqueLogs.contains (warnMsg "foo") = false ∧
    (∃ st1 emp1 st2 emp2 st1',
      employeeFromDict none ([SEntry.plain "first_name" .vNone "Ada",
        SEntry.unknown "foo" .vNone (.vStr "x")].map SEntry.render) initState
        = (st1, .ok emp1) ∧
      st1.logged = initState.logged ++ [(WARNING, warnMsg "foo")] ∧
      employeeFromDict none ([SEntry.unknown "foo" (.vStr "L")
        (.vStr "y")].map SEntry.render) st1 = (st2, .ok emp2) ∧
      st2.logged = st1.logged ∧
      employeeFromDict none (([SEntry.plain "first_name" .vNone "Ada",
        SEntry.unknown "foo" .vNone (.vStr "x")].filter
          (fun e => !isUnknownE e)).map SEntry.render) initState
        = (st1', .ok emp1)) :=
  ⟨by decide, by decide, by decide, by decide, by decide,
   c8_unknown_key_warns_once _ _ initState (by decide) (by decide) (by decide)
     (by decide) (by decide)⟩

/-! ## C7: custom-field ordering -/

/-- C7 fails as literally stated: the payload keys `"dynamic_01"` and
`"dynamic_1"` are distinct, but both parse to `field_id = 1`
(`int("01") = 1`), so the `{field_id: attr}` dict keeps only the last one —
swapping the order of the two entries changes which attribute survives, and
the two decoded resources compare unequal. -/
theorem c7_dynamic_order_counterexample :
    ∃ st1 st2 e1 e2,
      employeeFromDict none
          [("dynamic_01", .vDict [("label", .vStr "L1"), ("value", .vStr "a")]),
           ("dynamic_1", .vDict [("label", .vStr "L2"), ("value", .vStr "b")])]
          initState = (st1, .ok e1) ∧
      employeeFromDict none
          [("dynamic_1", .vDict [("label", .vStr "L2"), ("value", .vStr "b")]),
           ("dynamic_01", .vDict [("label", .vStr "L1"), ("value", .vStr "a")])]
          initState = (st2, .ok e2) ∧
      resourceEq e1 e2 = .ok false := by
  refine ⟨_, _, _, _, rfl, rfl, rfl⟩

/-- The wire form of a structured plain entry. -/
def renderPlainX (x : String × PyVal × String) : String × PyVal :=
  (x.1, lv x.2.1 (.vStr x.2.2))

/-- The wire form of a canonical dynamic entry `(id, label, value)`. -/
def renderDynX (x : Nat × String × String) : String × PyVal :=
  ("dynamic_" ++ String.mk (natToChars x.1), lv (.vStr x.2.1) (.vStr x.2.2))

theorem stepDyn_dynE (ds : List (Nat × String × String)) :
    ∀ (dy : List PyDynAttr),
    (ds.map (fun x => SEntry.dynE x.1 x.2.1 x.2.2)).foldl SEntry.stepDyn dy
      = dy ++ ds.map (fun x => PyDynAttr.mk x.1 (.vStr x.2.1) (.vStr x.2.2)) := by
  induction ds with
  | nil => intro dy; simp
  | cons x rest ih =>
    intro dy
    simp only [List.map_cons, List.foldl_cons, SEntry.stepDyn]
    rw [ih]
    simp

theorem stepKwargs_dynE (ds : List (Nat × String × String)) :
    ∀ (kw : List (String × PyVal)),
    (ds.map (fun x => SEntry.dynE x.1 x.2.1 x.2.2)).foldl SEntry.stepKwargs kw = kw := by
  induction ds with
  | nil => intro kw; rfl
  | cons x rest ih =>
    intro kw
    simp only [List.map_cons, List.foldl_cons, SEntry.stepKwargs]
    exact ih kw

theorem dynDictOf_eq (dl : List PyDynAttr) :
    ∀ (acc : List (Int × PyDynAttr)),
    ((acc.map Prod.fst) ++ dl.map (fun d => d.field_id)).Nodup →
    dl.foldl (fun acc d => dictInsert acc d.field_id d) acc
      = acc ++ dl.map (fun d => (d.field_id, d)) := by
  induction dl with
  | nil => intro acc _; simp
  | cons d rest ih =>
    intro acc hnd
    have hfresh : d.field_id ∉ acc.map Prod.fst := by
      intro hmem
      exact (List.nodup_append.mp hnd).2.2 hmem (by simp)
    simp only [List.foldl_cons]
    rw [dictInsert_fresh _ _ _ hfresh]
    have hrec := ih (acc ++ [(d.field_id, d)]) (by simpa using hnd)
    rw [hrec]
    simp

/-! ## Sortedness of the hash key's dynamic-dict rendering -/

def dynKeyLe (a b : Int × PyDynAttr) : Bool := decide (a.1 ≤ b.1)

theorem insertBy_perm {α : Type} (le : α → α → Bool) (a : α) (l : List α) :
    (insertBy le a l).Perm (a :: l) := by
  induction l with
  | nil => exact List.Perm.refl _
  | cons b rest ih =>
    rw [insertBy]
    split
    · exact List.Perm.refl _
    · exact (ih.cons b).trans (List.Perm.swap a b rest)

theorem sortBy_perm {α : Type} (le : α → α → Bool) (l : List α) :
    (sortBy le l).Perm l := by
  induction l with
  | nil => exact List.Perm.refl _
  | cons a rest ih => exact (insertBy_perm le a (sortBy le rest)).trans (ih.cons a)

theorem insertBy_sorted {α : Type} (le : α → α → Bool)
    (htot : ∀ x y, (le x y || le y x) = true)
    (htrans : ∀ x y z, le x y = true → le y z = true → le x z = true)
    (a : α) : ∀ (l : List α), l.Pairwise (fun x y => le x y = true) →
    (insertBy le a l).Pairwise (fun x y => le x y = true) := by
  intro l
  induction l with
  | nil => intro _; simp [insertBy]
  | cons b rest ih =>
    intro hs
    obtain ⟨hb, hrest⟩ := List.pairwise_cons.mp hs
    rw [insertBy]
    split
    · next hab =>
      refine List.pairwise_cons.mpr ⟨?_, hs⟩
      intro y hy
      rcases List.mem_cons.mp hy with rfl | hyr
      · exact hab
      · exact htrans a b y hab (hb y hyr)
    · next hab =>
      have hba : le b a = true := by
        have := htot a b
        rw [Bool.or_eq_true] at this
        rcases this with h | h
        · exact absurd h hab
        · exact h
      refine List.pairwise_cons.mpr ⟨?_, ih hrest⟩
      intro y hy
      have hy' := (insertBy_perm le a rest).subset hy
      rcases List.mem_cons.mp hy' with rfl | hyr
      · exact hba
      · exact hb y hyr

theorem sortBy_sorted {α : Type} (le : α → α → Bool)
    (htot : ∀ x y, (le x y || le y x) = true)
    (htrans : ∀ x y z, le x y = true → le y z = true → le x z = true)
    (l : List α) : (sortBy le l).Pairwise (fun x y => le x y = true) := by
  induction l with
  | nil => simp [sortBy]
  | cons a rest ih => exact insertBy_sorted le htot htrans a _ ih

theorem eq_of_sorted_perm_nodupkeys :
    ∀ (l1 l2 : List (Int × PyDynAttr)), l1.Perm l2 →
    (l1.map Prod.fst).Nodup →
    l1.Pairwise (fun x y => dynKeyLe x y = true) →
    l2.Pairwise (fun x y => dynKeyLe x y = true) → l1 = l2 := by
  intro l1
  induction l1 with
  | nil =>
    intro l2 hp _ _ _
    rw [(hp.symm).eq_nil]
  | cons a t1 ih =>
    intro l2 hp hnd hs1 hs2
    cases l2 with
    | nil => exact absurd hp.eq_nil (by simp)
    | cons b t2 =>
      have hab : a = b := by
        have ha2 : a ∈ b :: t2 := hp.subset (by simp)
        have hb1 : b ∈ a :: t1 := hp.symm.subset (by simp)
        rcases List.mem_cons.mp ha2 with heq | ha2t
        · exact heq
        rcases List.mem_cons.mp hb1 with heq | hb1t
        · exact heq.symm
        have h1 : dynKeyLe a b = true := (List.pairwise_cons.mp hs1).1 b hb1t
        have h2 : dynKeyLe b a = true := (List.pairwise_cons.mp hs2).1 a ha2t
        have hkey : a.1 = b.1 := by
          simp only [dynKeyLe, decide_eq_true_eq] at h1 h2
          omega
        exfalso
        have hnd2 : (a.1 :: t1.map Prod.fst).Nodup := by
          simpa only [List.map_cons] using hnd
        exact (List.nodup_cons.mp hnd2).1 (List.mem_map.mpr ⟨b, hb1t, hkey.symm⟩)
      subst hab
      have hp' : t1.Perm t2 := hp.cons_inv
      have hnd2 : (a.1 :: t1.map Prod.fst).Nodup := by
        simpa only [List.map_cons] using hnd
      have hnd' : (t1.map Prod.fst).Nodup := (List.nodup_cons.mp hnd2).2
      rw [ih t2 hp' hnd' (List.pairwise_cons.mp hs1).2 (List.pairwise_cons.mp hs2).2]

theorem dynKeyLe_total : ∀ x y, (dynKeyLe x y || dynKeyLe y x) = true := by
  intro x y
  simp only [dynKeyLe, Bool.or_eq_true, decide_eq_true_eq]
  omega

theorem dynKeyLe_trans : ∀ x y z, dynKeyLe x y = true → dynKeyLe y z = true →
    dynKeyLe x z = true := by
  intro x y z
  simp only [dynKeyLe, decide_eq_true_eq]
  omega

theorem sortBy_eq_of_perm (l1 l2 : List (Int × PyDynAttr)) (hp : l1.Perm l2)
    (hnd : (l1.map Prod.fst).Nodup) :
    sortBy dynKeyLe l1 = sortBy dynKeyLe l2 := by
  apply eq_of_sorted_perm_nodupkeys
  · exact (sortBy_perm _ l1).trans (hp.trans (sortBy_perm _ l2).symm)
  · exact (((sortBy_perm dynKeyLe l1).map Prod.fst).nodup_iff).mpr hnd
  · exact sortBy_sorted _ dynKeyLe_total dynKeyLe_trans l1
  · exact sortBy_sorted _ dynKeyLe_total dynKeyLe_trans l2

/-! ## Reflexivity of `==` on the values in scope -/

/-- Values appearing as mapped attributes of the payloads in scope:
`None` or a string. -/
def ShallowV (v : PyVal) : Prop := v = .vNone ∨ ∃ s, v = .vStr s

theorem pyEqF_refl_shallow (f : Nat) (v : PyVal) (h : ShallowV v) :
    pyEqF (f + 1) v v = .ok true := by
  rcases h with rfl | ⟨s, rfl⟩
  · rfl
  · simp [pyEqF]

theorem foldl_ok_true_gen {α : Type} (g : α → Except PyErr Bool) :
    ∀ (l : List α), (∀ x ∈ l, g x = .ok true) →
    l.foldl (fun (acc : Except PyErr Bool) x => do
      let r ← acc
      if r then g x else .ok false) ((.ok true : Except PyErr Bool)) = .ok true := by
  intro l
  induction l with
  | nil => intro _; rfl
  | cons x rest ih =>
    intro h
    rw [List.foldl_cons]
    have hstep : (do
        let r ← (Except.ok true : Except PyErr Bool)
        if r then g x else .ok false) = .ok true := by
      simp [bind, Except.bind, h x (by simp)]
    rw [hstep]
    exact ih (fun y hy => h y (by simp [hy]))

theorem zip_self_spec {α : Type} (l : List α) :
    ∀ p ∈ l.zip l, p.1 = p.2 ∧ p.1 ∈ l := by
  induction l with
  | nil => intro p hp; cases hp
  | cons a rest ih =>
    intro p hp
    rcases List.mem_cons.mp hp with rfl | hpr
    · exact ⟨rfl, by simp⟩
    · obtain ⟨h1, h2⟩ := ih p hpr
      exact ⟨h1, by simp [h2]⟩

theorem valsEqGen_refl (eqf : PyVal → PyVal → Except PyErr Bool)
    (vals : List PyVal) (h : ∀ v ∈ vals, eqf v v = .ok true) :
    valsEqGen eqf vals vals = .ok true := by
  rw [valsEqGen, if_neg (by simp)]
  refine foldl_ok_true_gen _ _ ?_
  intro p hp
  obtain ⟨h1, h2⟩ := zip_self_spec vals p hp
  show eqf p.1 p.2 = .ok true
  rw [h1] at h2 ⊢
  exact h p.2 h2

/-- The canonical `(key, attr)` pair of a dynamic entry. -/
def dynPairOf (x : Nat × String × String) : Int × PyDynAttr :=
  ((x.1 : Int), .mk (x.1 : Int) (.vStr x.2.1) (.vStr x.2.2))

theorem dynPair_keys_nodup (ds : List (Nat × String × String))
    (h : (ds.map (fun x => x.1)).Nodup) :
    ((ds.map dynPairOf).map Prod.fst).Nodup := by
  have hmm : (ds.map dynPairOf).map Prod.fst
      = (ds.map (fun x => x.1)).map (Nat.cast : Nat → Int) := by
    simp [List.map_map, dynPairOf, Function.comp]
  rw [hmm]
  exact List.Nodup.map Nat.cast_injective h

theorem dynAttrEqGen_refl (eqf : PyVal → PyVal → Except PyErr Bool)
    (a : PyDynAttr) (hl : eqf a.label a.label = .ok true)
    (hv : eqf a.value a.value = .ok true) :
    dynAttrEqGen eqf a a = .ok true := by
  rw [dynAttrEqGen]
  simp [bind, Except.bind, hl, hv]

theorem dynDictEqGen_perm (eqf : PyVal → PyVal → Except PyErr Bool)
    (ds1 ds2 : List (Nat × String × String)) (hp : ds1.Perm ds2)
    (hnd : (ds1.map (fun x => x.1)).Nodup)
    (heqf : ∀ s, eqf (.vStr s) (.vStr s) = .ok true) :
    dynDictEqGen eqf (ds1.map dynPairOf) (ds2.map dynPairOf) = .ok true := by
  have hnd2 : (ds2.map (fun x => x.1)).Nodup :=
    ((hp.map (fun x => x.1)).nodup_iff).mp hnd
  rw [dynDictEqGen, if_neg (by simp [(hp.map dynPairOf).length_eq])]
  refine foldl_ok_true_gen _ _ ?_
  intro kv hkv
  obtain ⟨x, hx, rfl⟩ := List.mem_map.mp hkv
  have hx2 : dynPairOf x ∈ ds2.map dynPairOf :=
    List.mem_map.mpr ⟨x, hp.subset hx, rfl⟩
  have hlk : (ds2.map dynPairOf).lookup (dynPairOf x).1 = some (dynPairOf x).2 :=
    (lookup_eq_some_of_nodupKeys _ (dynPair_keys_nodup ds2 hnd2) _ _).mpr
      (by simpa using hx2)
  simp only [hlk]
  exact dynAttrEqGen_refl eqf _ (heqf x.2.1) (heqf x.2.2)

theorem lookup_mem {κ β : Type} [BEq κ] [LawfulBEq κ] :
    ∀ (l : List (κ × β)) (k : κ) (v : β), l.lookup k = some v → (k, v) ∈ l := by
  intro l
  induction l with
  | nil => intro k v h; cases h
  | cons kv rest ih =>
    intro k v h
    obtain ⟨a, b⟩ := kv
    by_cases he : k = a
    · subst he
      simp only [List.lookup, beq_self_eq_true] at h
      simp only [Option.some_inj] at h
      simp [h]
    · have hbeq : (k == a) = false := by simpa using he
      simp only [List.lookup, hbeq] at h
      exact List.mem_cons.mpr (Or.inr (ih k v h))

theorem dictInsert_mem {κ β : Type} [BEq κ] [LawfulBEq κ] :
    ∀ (l : List (κ × β)) (k : κ) (v : β) (p : κ × β), p ∈ dictInsert l k v →
    p = (k, v) ∨ p ∈ l := by
  intro l
  induction l with
  | nil =>
    intro k v p hp
    simp [dictInsert] at hp
    exact Or.inl hp
  | cons kv rest ih =>
    intro k v p hp
    obtain ⟨k', v'⟩ := kv
    rw [dictInsert] at hp
    by_cases hb : (k' == k) = true
    · rw [if_pos hb] at hp
      rcases List.mem_cons.mp hp with rfl | hpr
      · exact Or.inl (by rw [eq_of_beq hb])
      · exact Or.inr (by simp [hpr])
    · rw [if_neg hb] at hp
      rcases List.mem_cons.mp hp with rfl | hpr
      · exact Or.inr (by simp)
      · rcases ih k v p hpr with h | h
        · exact Or.inl h
        · exact Or.inr (by simp [h])

/-- All values ever inserted into the kwargs dict are strings. -/
theorem stepKwargs_vals_vStr (sel : List SEntry) :
    ∀ (kw : List (String × PyVal)),
    (∀ p ∈ kw, ∃ s, p.2 = PyVal.vStr s) →
    ∀ p ∈ sel.foldl SEntry.stepKwargs kw, ∃ s, p.2 = PyVal.vStr s := by
  induction sel with
  | nil => exact fun kw h => h
  | cons e rest ih =>
    intro kw hkw
    rw [List.foldl_cons]
    apply ih
    cases e with
    | plain k lab s =>
      intro p hp
      rcases dictInsert_mem kw (classFieldOf k) (.vStr s) p hp with rfl | hpr
      · exact ⟨s, rfl⟩
      · exact hkw p hpr
    | dynE fid lab v => exact hkw
    | unknown k lab v => exact hkw

theorem mapM_getattr_ok (i : PyInstance) :
    ∀ (ms : List FieldMappingM),
    (∀ m ∈ ms, ∃ v, i.attrs.lookup m.class_field = some v ∧ ShallowV v) →
    ∃ vals, ms.mapM (fun m => getattrE i m.class_field) = .ok vals ∧
      ∀ v ∈ vals, ShallowV v := by
  intro ms
  induction ms with
  | nil => exact fun _ => ⟨[], rfl, by simp⟩
  | cons m rest ih =>
    intro h
    obtain ⟨v, hv, hsh⟩ := h m (by simp)
    obtain ⟨vals, hvals, hshs⟩ := ih (fun m' hm' => h m' (by simp [hm']))
    refine ⟨v :: vals, ?_, ?_⟩
    · have hf : getattrE i m.class_field = .ok v := by
        rw [getattrE, hv]
      rw [List.mapM_cons, hf]
      simp only [bind, Except.bind]
      rw [hvals]
      rfl
    · intro w hw
      rcases List.mem_cons.mp hw with rfl | hwr
      · exact hsh
      · exact hshs w hwr

theorem toTuple_of_mapM (i : PyInstance) (vals : List PyVal)
    (d : List (Int × PyDynAttr))
    (hm : (mappingsOf i.cls).mapM (fun m => getattrE i m.class_field) = .ok vals)
    (hd : i.dyn = some d) :
    toTuple i = .ok (vals, d, pyClassStr i.cls) := by
  rw [toTuple, hm]
  simp [bind, Except.bind, hd]

theorem hashKey_of_toTuple (i : PyInstance) (vals : List PyVal)
    (d : List (Int × PyDynAttr)) (cls : String)
    (htt : toTuple i = .ok (vals, d, cls)) :
    resourceHashKey i = (do
      let parts ← vals.mapM (fun x => jsonDumpsF pyRecLimit x)
      let dd ← jsonDumpDynDict pyRecLimit d
      Except.ok ("[" ++ joinParts ", " (parts ++ [dd, jsonQuote cls]) ++ "]")) := by
  rw [resourceHashKey, htt]
  rfl

/-- Decoding a payload of known plain fields followed by dynamic entries
with pairwise-distinct ids succeeds, and produces the kwargs dict of the
plain prefix together with the `{field_id: DynamicAttr}` dict of the
dynamic entries. -/
theorem c7_decode_aux (known : List (String × PyVal × String))
    (ds : List (Nat × String × String)) (st0 : PyState)
    (hkeys : ∀ x ∈ known, plainKnown x.1 = true)
    (hids : (ds.map (fun x => x.1)).Nodup) :
    employeeFromDict none (known.map renderPlainX ++ ds.map renderDynX) st0
      = ((known.map (fun x => SEntry.plain x.1 x.2.1 x.2.2)
            ++ ds.map (fun x => SEntry.dynE x.1 x.2.1 x.2.2)).foldl SEntry.stepState st0,
         .ok (PyInstance.mk "Employee"
           (employeeParams.map (fun p =>
             (p, (((known.map (fun x => SEntry.plain x.1 x.2.1 x.2.2)).foldl
               SEntry.stepKwargs []).lookup p).getD PyVal.vNone)))
           (some (ds.map dynPairOf)) none)) := by
  have hselK : ∀ e ∈ known.map (fun x => SEntry.plain x.1 x.2.1 x.2.2), SEntry.ok e := by
    intro e he
    obtain ⟨x, hx, rfl⟩ := List.mem_map.mp he
    exact hkeys x hx
  have hsel : ∀ e ∈ known.map (fun x => SEntry.plain x.1 x.2.1 x.2.2)
      ++ ds.map (fun x => SEntry.dynE x.1 x.2.1 x.2.2), SEntry.ok e := by
    intro e he
    rcases List.mem_append.mp he with h | h
    · exact hselK e h
    · obtain ⟨x, hx, rfl⟩ := List.mem_map.mp h
      trivial
  have hr : (known.map (fun x => SEntry.plain x.1 x.2.1 x.2.2)
      ++ ds.map (fun x => SEntry.dynE x.1 x.2.1 x.2.2)).map SEntry.render
      = known.map renderPlainX ++ ds.map renderDynX := by
    rw [List.map_append, List.map_map, List.map_map]
    rfl
  have hm := mapFieldsAux_sentries
    (known.map (fun x => SEntry.plain x.1 x.2.1 x.2.2)
      ++ ds.map (fun x => SEntry.dynE x.1 x.2.1 x.2.2)) hsel st0 [] []
  rw [hr] at hm
  have hkw : (known.map (fun x => SEntry.plain x.1 x.2.1 x.2.2)
      ++ ds.map (fun x => SEntry.dynE x.1 x.2.1 x.2.2)).foldl SEntry.stepKwargs []
      = (known.map (fun x => SEntry.plain x.1 x.2.1 x.2.2)).foldl SEntry.stepKwargs [] := by
    rw [List.foldl_append]
    exact stepKwargs_dynE ds _
  have hdy : (known.map (fun x => SEntry.plain x.1 x.2.1 x.2.2)
      ++ ds.map (fun x => SEntry.dynE x.1 x.2.1 x.2.2)).foldl SEntry.stepDyn []
      = ds.map (fun x => PyDynAttr.mk x.1 (.vStr x.2.1) (.vStr x.2.2)) := by
    rw [List.foldl_append, stepDyn_all_plain, stepDyn_dynE]
    simp
  rw [hkw, hdy] at hm
  have hfd := employeeFromDict_ok none _ st0 _ _ _ hm
  rw [hfd]
  have hall : ((known.map (fun x => SEntry.plain x.1 x.2.1 x.2.2)).foldl
      SEntry.stepKwargs []).all (fun kv => employeeParams.contains kv.1) = true :=
    stepKwargs_all_params _ [] hselK rfl
  have hmm2 : (ds.map (fun x => PyDynAttr.mk x.1 (.vStr x.2.1) (.vStr x.2.2))).map
      (fun d => d.field_id) = (ds.map (fun x => x.1)).map (Nat.cast : Nat → Int) := by
    rw [List.map_map, List.map_map]
    rfl
  have hnd : ((([] : List (Int × PyDynAttr)).map Prod.fst)
      ++ (ds.map (fun x => PyDynAttr.mk x.1 (.vStr x.2.1) (.vStr x.2.2))).map
        (fun d => d.field_id)).Nodup := by
    simp only [List.map_nil, List.nil_append]
    rw [hmm2]
    exact List.Nodup.map Nat.cast_injective hids
  have hdd : (ds.map (fun x => PyDynAttr.mk x.1 (.vStr x.2.1) (.vStr x.2.2))).foldl
      (fun acc d => dictInsert acc d.field_id d) [] = ds.map dynPairOf := by
    rw [dynDictOf_eq _ [] hnd, List.map_map]
    rfl
  rw [employeeNew, if_pos hall, hdd]

/-- The `to_tuple()` projection of a decoded instance: the mapped attribute
values (all `None`-or-string), the dynamic dict as stored, and the class
tag. -/
theorem c7_tuple_aux (known : List (String × PyVal × String)) :
    ∃ vals, (∀ v ∈ vals, ShallowV v) ∧
    ∀ dd : List (Int × PyDynAttr),
      toTuple (PyInstance.mk "Employee"
        (employeeParams.map (fun p =>
          (p, (((known.map (fun x => SEntry.plain x.1 x.2.1 x.2.2)).foldl
            SEntry.stepKwargs []).lookup p).getD PyVal.vNone)))
        (some dd) none)
      = .ok (vals, dd, pyClassStr "Employee") := by
  have hshallow : ∀ p : String, ShallowV
      ((((known.map (fun x => SEntry.plain x.1 x.2.1 x.2.2)).foldl
        SEntry.stepKwargs []).lookup p).getD PyVal.vNone) := by
    intro p
    cases hl : ((known.map (fun x => SEntry.plain x.1 x.2.1 x.2.2)).foldl
        SEntry.stepKwargs []).lookup p with
    | none => exact Or.inl rfl
    | some v =>
      obtain ⟨s, hs⟩ := stepKwargs_vals_vStr _ [] (by simp) (p, v)
        (lookup_mem _ p v hl)
      exact Or.inr ⟨s, hs⟩
  have harg : ∀ m ∈ employeeMappings, ∃ v,
      (PyInstance.mk "Employee"
        (employeeParams.map (fun p =>
          (p, (((known.map (fun x => SEntry.plain x.1 x.2.1 x.2.2)).foldl
            SEntry.stepKwargs []).lookup p).getD PyVal.vNone)))
        (some ([] : List (Int × PyDynAttr))) none).attrs.lookup m.class_field
        = some v ∧ ShallowV v := by
    intro m hm
    refine ⟨_, ?_, hshallow m.class_field⟩
    show (employeeParams.map (fun p =>
        (p, (((known.map (fun x => SEntry.plain x.1 x.2.1 x.2.2)).foldl
          SEntry.stepKwargs []).lookup p).getD PyVal.vNone))).lookup m.class_field
      = some ((((known.map (fun x => SEntry.plain x.1 x.2.1 x.2.2)).foldl
          SEntry.stepKwargs []).lookup m.class_field).getD PyVal.vNone)
    exact lookup_map_self employeeParams emp_params_nodup _ m.class_field
      (emp_class_fields_in_params m hm)
  obtain ⟨vals, hm, hsh⟩ := mapM_getattr_ok _ employeeMappings harg
  refine ⟨vals, hsh, ?_⟩
  intro dd
  refine toTuple_of_mapM _ vals dd ?_ rfl
  exact hm

/-- One unfolding of `==` on two resources whose projections are known. -/
theorem pyEqF_inst (f : Nat) (i j : PyInstance)
    (t1 t2 : List PyVal × List (Int × PyDynAttr) × String)
    (h1 : toTuple i = .ok t1) (h2 : toTuple j = .ok t2) :
    pyEqF (f + 1) (.vInst i) (.vInst j)
      = tupleEqGen (fun x y => pyEqF f x y) t1 t2 := by
  simp only [pyEqF, h1, h2]

/-- `json.dumps` of the dynamic dict depends on it only through the sorted
key order. -/
theorem jsonDumpDynDict_congr (d1 d2 : List (Int × PyDynAttr))
    (h : sortBy dynKeyLe d1 = sortBy dynKeyLe d2) :
    jsonDumpDynDict pyRecLimit d1 = jsonDumpDynDict pyRecLimit d2 := by
  exact congrArg (fun l : List (Int × PyDynAttr) => do
    let parts ← l.mapM (fun kv : Int × PyDynAttr => do
      let r ← jsonDumpsF pyRecLimit (.vList [.vInt kv.2.field_id, kv.2.label, kv.2.value])
      pure (jsonQuote (pyStrOfInt kv.1) ++ ": " ++ r))
    Except.ok ("\x7b" ++ joinParts ", " parts ++ "\x7d")) h

/-- C7 amended: decoding a payload whose keys are known plain `Employee`
fields followed by `dynamic_<id>` entries is insensitive to the ORDER of
the dynamic entries, provided their parsed ids are pairwise distinct (with
colliding ids — e.g. `dynamic_01` vs `dynamic_1` — the later entry
overwrites the earlier, see the counterexample): both payloads decode
successfully, the two instances compare equal under `__eq__`, and their
canonical `__hash__` keys coincide. -/
theorem c7_dynamic_order (known : List (String × PyVal × String))
    (ds1 ds2 : List (Nat × String × String)) (st0 : PyState)
    (hkeys : ∀ x ∈ known, plainKnown x.1 = true)
    (hperm : ds1.Perm ds2)
    (hids : (ds1.map (fun x => x.1)).Nodup) :
    ∃ st1 st2 e1 e2,
      employeeFromDict none (known.map renderPlainX ++ ds1.map renderDynX) st0
        = (st1, .ok e1) ∧
      employeeFromDict none (known.map renderPlainX ++ ds2.map renderDynX) st0
        = (st2, .ok e2) ∧
      resourceEq e1 e2 = .ok true ∧
      resourceHashKey e1 = resourceHashKey e2 := by
  have hids2 : (ds2.map (fun x => x.1)).Nodup :=
    ((hperm.map (fun x => x.1)).nodup_iff).mp hids
  have h1 := c7_decode_aux known ds1 st0 hkeys hids
  have h2 := c7_decode_aux known ds2 st0 hkeys hids2
  obtain ⟨vals, hsh, htt⟩ := c7_tuple_aux known
  have htt1 := htt (ds1.map dynPairOf)
  have htt2 := htt (ds2.map dynPairOf)
  refine ⟨_, _, _, _, h1, h2, ?_, ?_⟩
  · rw [resourceEq, show pyRecLimit = 999 + 1 from rfl,
      pyEqF_inst 999 _ _ _ _ htt1 htt2]
    have hA : valsEqGen (fun x y => pyEqF 999 x y) vals vals = .ok true :=
      valsEqGen_refl _ vals (fun v hv => pyEqF_refl_shallow 998 v (hsh v hv))
    have hB : dynDictEqGen (fun x y => pyEqF 999 x y)
        (ds1.map dynPairOf) (ds2.map dynPairOf) = .ok true :=
      dynDictEqGen_perm _ ds1 ds2 hperm hids
        (fun s => pyEqF_refl_shallow 998 (.vStr s) (Or.inr ⟨s, rfl⟩))
    show (do
      let b1 ← valsEqGen (fun x y => pyEqF 999 x y) vals vals
      if b1 then
        let b2 ← dynDictEqGen (fun x y => pyEqF 999 x y)
          (ds1.map dynPairOf) (ds2.map dynPairOf)
        if b2 then Except.ok (pyClassStr "Employee" == pyClassStr "Employee")
        else Except.ok false
      else Except.ok false) = Except.ok true
    rw [hA]
    simp [hB, bind, Except.bind]
  · rw [hashKey_of_toTuple _ vals (ds1.map dynPairOf) (pyClassStr "Employee") htt1,
      hashKey_of_toTuple _ vals (ds2.map dynPairOf) (pyClassStr "Employee") htt2]
    have hdd : jsonDumpDynDict pyRecLimit (ds1.map dynPairOf)
        = jsonDumpDynDict pyRecLimit (ds2.map dynPairOf) :=
      jsonDumpDynDict_congr _ _ (sortBy_eq_of_perm _ _ (hperm.map dynPairOf)
        (dynPair_keys_nodup ds1 hids))
    simp only [hdd]

/-- Witness for the amended C7 theorem: a concrete payload with one known
plain field and two dynamic fields, the second payload swapping the two
dynamic entries. -/
theorem c7_dynamic_order_witness :
    (∀ x ∈ ([("first_name", PyVal.vStr "First name", "Alan")] :
        List (String × PyVal × String)), plainKnown x.1 = true) ∧
    ([((4567 : Nat), "Shoe size", "43"), ((9876 : Nat), "Hobby", "chess")] :
        List (Nat × String × String)).Perm
      [((9876 : Nat), "Hobby", "chess"), ((4567 : Nat), "Shoe size", "43")] ∧
    (([((4567 : Nat), "Shoe size", "43"), ((9876 : Nat), "Hobby", "chess")] :
        List (Nat × String × String)).map (fun x => x.1)).Nodup ∧
    (∃ st1 st2 e1 e2,
      employeeFromDict none
        (([("first_name", PyVal.vStr "First name", "Alan")] :
            List (String × PyVal × String)).map renderPlainX
          ++ ([((4567 : Nat), "Shoe size", "43"), ((9876 : Nat), "Hobby", "chess")] :
            List (Nat × String × String)).map renderDynX) initState
        = (st1, .ok e1) ∧
      employeeFromDict none
        (([("first_name", PyVal.vStr "First name", "Alan")] :
            List (String × PyVal × String)).map renderPlainX
          ++ ([((9876 : Nat), "Hobby", "chess"), ((4567 : Nat), "Shoe size", "43")] :
            List (Nat × String × String)).map renderDynX) initState
        = (st2, .ok e2) ∧
      resourceEq e1 e2 = .ok true ∧
      resourceHashKey e1 = resourceHashKey e2) :=
  ⟨by decide, List.Perm.swap _ _ _, by decide,
    c7_dynamic_order [("first_name", PyVal.vStr "First name", "Alan")]
      [((4567 : Nat), "Shoe size", "43"), ((9876 : Nat), "Hobby", "chess")]
      [((9876 : Nat), "Hobby", "chess"), ((4567 : Nat), "Shoe size", "43")]
      initState (by decide) (List.Perm.swap _ _ _) (by decide)⟩
